import Mathlib

/-!
Shallow embedding of the NuttX CDC-ECM USB function driver
(`drivers/usbdev/cdcecm.c`) and of the optimized `memmem`
(`libs/libc/string/lib_memmem.c`), together with theorems settling the
specification claims about them.

Build configuration reflected by the embedding (the C source is guarded
by preprocessor conditionals): `CONFIG_NET_IPv4`, `CONFIG_NET_IPv6`,
`CONFIG_NET_ARP` and `CONFIG_USBDEV_DUALSPEED` are enabled;
`CONFIG_NET_PKT`, `CONFIG_CDCECM_COMPOSITE` and
`CONFIG_BOARD_USBDEV_SERIALSTR` are disabled except where noted.
`CONFIG_USBDEV_SUPERSPEED` is kept as an explicit boolean parameter `ss`
of the descriptor builders, because the size/fill behaviour of the
builders differs with it.

Machine integers are modelled as `Nat`/`Int`; `unsigned long` values are
reduced modulo `2 ^ 32` exactly where the C performs 32-bit wrap-around.
Buffers are modelled as `List Nat` of byte values.
-/

namespace Cdcecm

/-! ### Constants

Errno values as in the Linux-compatible NuttX `errno.h`; only their
identity (and sign, after negation) matters for the claims. -/

def OK : Int := 0
def EIO : Int := 5
def EINVAL : Int := 22
def EOPNOTSUPP : Int := 95
def ENOTSUP : Int := 95
def ESHUTDOWN : Int := 108

/-- USB bus speed values from `include/nuttx/usb/usb.h`. -/
def USB_SPEED_UNKNOWN : Nat := 0
def USB_SPEED_LOW : Nat := 1
def USB_SPEED_FULL : Nat := 2
def USB_SPEED_HIGH : Nat := 3
def USB_SPEED_SUPER : Nat := 4
def USB_SPEED_SUPER_PLUS : Nat := 5

/-- USB descriptor types from `include/nuttx/usb/usb.h`. -/
def USB_DESC_TYPE_DEVICE : Nat := 1
def USB_DESC_TYPE_CONFIG : Nat := 2
def USB_DESC_TYPE_STRING : Nat := 3
def USB_DESC_TYPE_INTERFACE : Nat := 4
def USB_DESC_TYPE_ENDPOINT : Nat := 5
def USB_DESC_TYPE_OTHERSPEEDCONFIG : Nat := 7
def USB_DESC_TYPE_CSINTERFACE : Nat := 0x24
def USB_DESC_TYPE_ENDPOINT_COMPANION : Nat := 0x30

def USB_DIR_IN : Nat := 0x80
def USB_DIR_OUT : Nat := 0x00
def USB_EP_ATTR_XFER_INT : Nat := 3
def USB_EP_ATTR_XFER_BULK : Nat := 2
def USB_CONFIG_ATTR_ONE : Nat := 0x80

def USB_CLASS_CDC : Nat := 2
def USB_CLASS_CDC_DATA : Nat := 0x0a
def CDC_SUBCLASS_ECM : Nat := 6
def CDC_PROTO_NONE : Nat := 0
def CDC_DSUBTYPE_HDR : Nat := 0
def CDC_DSUBTYPE_UNION : Nat := 6
def CDC_DSUBTYPE_ECM : Nat := 0x0f

/-- Structure sizes (bytes) of the packed USB descriptor structs. -/
def USB_SIZEOF_CFGDESC : Nat := 9
def USB_SIZEOF_IFDESC : Nat := 9
def USB_SIZEOF_EPDESC : Nat := 7
def USB_SIZEOF_SS_EPCOMPDESC : Nat := 6
def SIZEOF_HDR_FUNCDESC : Nat := 5
/-- `SIZEOF_UNION_FUNCDESC(1)`: union functional descriptor, one slave. -/
def SIZEOF_UNION_FUNCDESC1 : Nat := 5
def SIZEOF_ECM_FUNCDESC : Nat := 13

/-- Kconfig defaults for the endpoint packet sizes and power budget.
Only the byte values of descriptor fields depend on these; no claim
depends on the particular numbers. -/
def CONFIG_CDCECM_EPINTIN_FSSIZE : Nat := 16
def CONFIG_CDCECM_EPINTIN_HSSIZE : Nat := 64
def CONFIG_CDCECM_EPINTIN_SSSIZE : Nat := 64
def CONFIG_CDCECM_EPBULKIN_FSSIZE : Nat := 64
def CONFIG_CDCECM_EPBULKIN_HSSIZE : Nat := 512
def CONFIG_CDCECM_EPBULKIN_SSSIZE : Nat := 1024
def CONFIG_CDCECM_EPBULKOUT_FSSIZE : Nat := 64
def CONFIG_CDCECM_EPBULKOUT_HSSIZE : Nat := 512
def CONFIG_CDCECM_EPBULKOUT_SSSIZE : Nat := 1024
def CONFIG_CDCECM_EPINTIN_MAXBURST : Nat := 0
def CONFIG_CDCECM_EPBULKIN_MAXBURST : Nat := 0
def CONFIG_CDCECM_EPBULKOUT_MAXBURST : Nat := 0
def CONFIG_CDCECM_EPBULKIN_MAXSTREAM : Nat := 0
def CONFIG_CDCECM_EPBULKOUT_MAXSTREAM : Nat := 0
def USB_SS_INT_EP_MAXBURST : Nat := 3
def USB_SS_BULK_EP_MAXBURST : Nat := 16
def USB_SS_BULK_EP_MAXSTREAM : Nat := 16
def CONFIG_NET_ETH_PKTSIZE : Nat := 590
def CONFIG_USBDEV_MAXPOWER : Nat := 100

/-- Modelled from the spec: constants of the driver header `cdcecm.h`,
which is not among the provided source files.  The spec fixes a single
supported configuration id distinct from the `NONE` id (§4.3), three
endpoints (§2), and the string-descriptor layout (§6); the numeric
values are the standard ones of the NuttX header. -/
def CDCECM_CONFIGID_NONE : Nat := 0
def CDCECM_CONFIGID : Nat := 1
def CDCECM_NINTERFACES : Nat := 2
def CDCECM_EP_INTIN_IDX : Nat := 0
def CDCECM_EP_BULKIN_IDX : Nat := 1
def CDCECM_EP_BULKOUT_IDX : Nat := 2
def CDCECM_MANUFACTURERSTRID : Nat := 1
def CDCECM_PRODUCTSTRID : Nat := 2
def CDCECM_SERIALSTRID : Nat := 3
def CDCECM_CONFIGSTRID : Nat := 4
def CDCECM_MACSTRID : Nat := 5
def CDCECM_STR_LANGUAGE : Nat := 0x0409
/-- Modelled from the spec: §4.1 clamps strings to a maximum buffer
length; the header value bounds the UTF-16 payload of one string
descriptor. -/
def CDCECM_MAXSTRLEN : Nat := 126
def CDCECM_SELFPOWERED : Nat := 0
def CDCECM_REMOTEWAKEUP : Nat := 0

def LSBYTE (x : Nat) : Nat := x % 256
def MSBYTE (x : Nat) : Nat := (x / 256) % 256

/-- The `usbdev_devinfo_s` fields the descriptor builders read: the
interface-number base, the string-index base and the endpoint numbers
assigned by the enclosing device layer. -/
structure Devinfo where
  ifnobase : Nat
  strbase : Nat
  epnoIntin : Nat
  epnoBulkin : Nat
  epnoBulkout : Nat
deriving DecidableEq

/-! ### Descriptor builder -/

/-- `cdcecm_mkepcompdesc`: bytes of the superspeed endpoint companion
descriptor for endpoint index `epidx` (struct `usb_ss_epcompdesc_s`:
len, type, mxburst, attr, wbytes[2]).  The `default` case of the C
switch writes nothing. -/
def cdcecm_mkepcompdesc (epidx : Nat) : List Nat :=
  if epidx == CDCECM_EP_INTIN_IDX then
    let mxburst := if CONFIG_CDCECM_EPINTIN_MAXBURST ≥ USB_SS_INT_EP_MAXBURST
                   then USB_SS_INT_EP_MAXBURST - 1
                   else CONFIG_CDCECM_EPINTIN_MAXBURST
    [USB_SIZEOF_SS_EPCOMPDESC, USB_DESC_TYPE_ENDPOINT_COMPANION, mxburst, 0,
     LSBYTE ((mxburst + 1) * CONFIG_CDCECM_EPINTIN_SSSIZE),
     MSBYTE ((mxburst + 1) * CONFIG_CDCECM_EPINTIN_SSSIZE)]
  else if epidx == CDCECM_EP_BULKOUT_IDX then
    let mxburst := if CONFIG_CDCECM_EPBULKOUT_MAXBURST ≥ USB_SS_BULK_EP_MAXBURST
                   then USB_SS_BULK_EP_MAXBURST - 1
                   else CONFIG_CDCECM_EPBULKOUT_MAXBURST
    let attr := if CONFIG_CDCECM_EPBULKOUT_MAXSTREAM > USB_SS_BULK_EP_MAXSTREAM
                then USB_SS_BULK_EP_MAXSTREAM
                else CONFIG_CDCECM_EPBULKOUT_MAXSTREAM
    [USB_SIZEOF_SS_EPCOMPDESC, USB_DESC_TYPE_ENDPOINT_COMPANION, mxburst, attr, 0, 0]
  else if epidx == CDCECM_EP_BULKIN_IDX then
    let mxburst := if CONFIG_CDCECM_EPBULKIN_MAXBURST ≥ USB_SS_BULK_EP_MAXBURST
                   then USB_SS_BULK_EP_MAXBURST - 1
                   else CONFIG_CDCECM_EPBULKIN_MAXBURST
    let attr := if CONFIG_CDCECM_EPBULKIN_MAXSTREAM > USB_SS_BULK_EP_MAXSTREAM
                then USB_SS_BULK_EP_MAXSTREAM
                else CONFIG_CDCECM_EPBULKIN_MAXSTREAM
    [USB_SIZEOF_SS_EPCOMPDESC, USB_DESC_TYPE_ENDPOINT_COMPANION, mxburst, attr, 0, 0]
  else
    []

/-- `cdcecm_mkepdesc`: endpoint-descriptor builder.  `ss` is
`CONFIG_USBDEV_SUPERSPEED`; `fill = false` is the C call with
`epdesc == NULL` (size-only pass).  The result is the C return value
(the computed `len`) paired with the bytes the call writes (empty for
the size-only pass).  The `default` case of the epidx switch is
`DEBUGPANIC()` in the C; in a release build it leaves the
descriptor body unwritten past the two header bytes. -/
def cdcecm_mkepdesc (ss : Bool) (epidx : Nat) (fill : Bool)
    (devinfo : Devinfo) (speed : Nat) : Nat × List Nat :=
  let isSS := ss && (speed == USB_SPEED_SUPER || speed == USB_SPEED_SUPER_PLUS
                     || speed == USB_SPEED_UNKNOWN)
  let intin_mxpktsz :=
    if isSS then CONFIG_CDCECM_EPINTIN_SSSIZE
    else if speed == USB_SPEED_HIGH then CONFIG_CDCECM_EPINTIN_HSSIZE
    else CONFIG_CDCECM_EPINTIN_FSSIZE
  let bulkout_mxpktsz :=
    if isSS then CONFIG_CDCECM_EPBULKOUT_SSSIZE
    else if speed == USB_SPEED_HIGH then CONFIG_CDCECM_EPBULKOUT_HSSIZE
    else CONFIG_CDCECM_EPBULKOUT_FSSIZE
  let bulkin_mxpktsz :=
    if isSS then CONFIG_CDCECM_EPBULKIN_SSSIZE
    else if speed == USB_SPEED_HIGH then CONFIG_CDCECM_EPBULKIN_HSSIZE
    else CONFIG_CDCECM_EPBULKIN_FSSIZE
  let len := if isSS then USB_SIZEOF_EPDESC + USB_SIZEOF_SS_EPCOMPDESC
             else USB_SIZEOF_EPDESC
  if !fill then (len, [])
  else
    let body :=
      if epidx == CDCECM_EP_INTIN_IDX then
        [USB_SIZEOF_EPDESC, USB_DESC_TYPE_ENDPOINT,
         USB_DIR_IN ||| devinfo.epnoIntin, USB_EP_ATTR_XFER_INT,
         LSBYTE intin_mxpktsz, MSBYTE intin_mxpktsz, 5]
      else if epidx == CDCECM_EP_BULKIN_IDX then
        [USB_SIZEOF_EPDESC, USB_DESC_TYPE_ENDPOINT,
         USB_DIR_IN ||| devinfo.epnoBulkin, USB_EP_ATTR_XFER_BULK,
         LSBYTE bulkin_mxpktsz, MSBYTE bulkin_mxpktsz, 0]
      else if epidx == CDCECM_EP_BULKOUT_IDX then
        [USB_SIZEOF_EPDESC, USB_DESC_TYPE_ENDPOINT,
         USB_DIR_OUT ||| devinfo.epnoBulkout, USB_EP_ATTR_XFER_BULK,
         LSBYTE bulkout_mxpktsz, MSBYTE bulkout_mxpktsz, 0]
      else
        [USB_SIZEOF_EPDESC, USB_DESC_TYPE_ENDPOINT]
    let comp :=
      if ss && (speed == USB_SPEED_SUPER || speed == USB_SPEED_SUPER_PLUS) then
        cdcecm_mkepcompdesc epidx
      else []
    (len, body ++ comp)

/-- `cdcecm_mkcfgdesc`: configuration-descriptor builder for the
non-composite build.  `fill = false` is the C call with `desc == NULL`.
The result is the C return value (the accumulated `len`) paired with
the bytes the call writes.  The C patches `cfgdesc->totallen` with the
final `len` after the body has been emitted; the byte list below shows
the resulting final buffer contents, with `len` already available. -/
def cdcecm_mkcfgdesc (ss : Bool) (fill : Bool) (devinfo : Devinfo)
    (speed0 ty : Nat) : Nat × List Nat :=
  -- check for switches between high and full speed
  let speed := if ty == USB_DESC_TYPE_OTHERSPEEDCONFIG && speed0 < USB_SPEED_SUPER then
                 (if speed0 == USB_SPEED_HIGH then USB_SPEED_FULL else USB_SPEED_HIGH)
               else speed0
  let epInt := cdcecm_mkepdesc ss CDCECM_EP_INTIN_IDX fill devinfo speed
  let epBulkin := cdcecm_mkepdesc ss CDCECM_EP_BULKIN_IDX fill devinfo speed
  let epBulkout := cdcecm_mkepdesc ss CDCECM_EP_BULKOUT_IDX fill devinfo speed
  let len := USB_SIZEOF_CFGDESC + USB_SIZEOF_IFDESC + SIZEOF_HDR_FUNCDESC
             + SIZEOF_UNION_FUNCDESC1 + SIZEOF_ECM_FUNCDESC + epInt.1
             + USB_SIZEOF_IFDESC + USB_SIZEOF_IFDESC + epBulkin.1 + epBulkout.1
  if !fill then (len, [])
  else
    let cfg := [USB_SIZEOF_CFGDESC, ty, LSBYTE len, MSBYTE len,
                CDCECM_NINTERFACES, CDCECM_CONFIGID,
                LSBYTE (devinfo.strbase + CDCECM_CONFIGSTRID),
                USB_CONFIG_ATTR_ONE ||| CDCECM_SELFPOWERED ||| CDCECM_REMOTEWAKEUP,
                (CONFIG_USBDEV_MAXPOWER + 1) / 2]
    -- communications class interface
    let if0 := [USB_SIZEOF_IFDESC, USB_DESC_TYPE_INTERFACE,
                LSBYTE devinfo.ifnobase, 0, 1,
                USB_CLASS_CDC, CDC_SUBCLASS_ECM, CDC_PROTO_NONE, 0]
    let hdr := [SIZEOF_HDR_FUNCDESC, USB_DESC_TYPE_CSINTERFACE, CDC_DSUBTYPE_HDR,
                LSBYTE 0x0110, MSBYTE 0x0110]
    let uni := [SIZEOF_UNION_FUNCDESC1, USB_DESC_TYPE_CSINTERFACE, CDC_DSUBTYPE_UNION,
                LSBYTE devinfo.ifnobase, LSBYTE (devinfo.ifnobase + 1)]
    let ecm := [SIZEOF_ECM_FUNCDESC, USB_DESC_TYPE_CSINTERFACE, CDC_DSUBTYPE_ECM,
                LSBYTE (devinfo.strbase + CDCECM_MACSTRID), 0, 0, 0, 0,
                LSBYTE CONFIG_NET_ETH_PKTSIZE, MSBYTE CONFIG_NET_ETH_PKTSIZE,
                LSBYTE 0, MSBYTE 0, 0]
    -- data class interface, alternate settings 0 and 1
    let if1 := [USB_SIZEOF_IFDESC, USB_DESC_TYPE_INTERFACE,
                LSBYTE (devinfo.ifnobase + 1), 0, 0,
                USB_CLASS_CDC_DATA, CDC_SUBCLASS_ECM, CDC_PROTO_NONE, 0]
    let if2 := [USB_SIZEOF_IFDESC, USB_DESC_TYPE_INTERFACE,
                LSBYTE (devinfo.ifnobase + 1), 1, 2,
                USB_CLASS_CDC_DATA, CDC_SUBCLASS_ECM, CDC_PROTO_NONE, 0]
    (len, cfg ++ if0 ++ hdr ++ uni ++ ecm ++ epInt.2 ++ if1 ++ if2
          ++ epBulkin.2 ++ epBulkout.2)

end Cdcecm

namespace Cdcecm

/-! ### Claim C1: descriptor double-pass consistency -/

lemma mkepcompdesc_length (epidx : Nat) (h3 : epidx < 3) :
    (cdcecm_mkepcompdesc epidx).length = 6 := by
  interval_cases epidx <;> decide

/-- The value returned by `cdcecm_mkepdesc` does not depend on whether an
output buffer is supplied: the C computes `len` before the `NULL` check
and returns it on both paths. -/
lemma mkepdesc_fst_eq (ss : Bool) (epidx : Nat) (dv : Devinfo) (speed : Nat) :
    (cdcecm_mkepdesc ss epidx false dv speed).1
      = (cdcecm_mkepdesc ss epidx true dv speed).1 := rfl

lemma mkcfgdesc_fst_eq (ss : Bool) (dv : Devinfo) (speed ty : Nat) :
    (cdcecm_mkcfgdesc ss false dv speed ty).1
      = (cdcecm_mkcfgdesc ss true dv speed ty).1 := rfl

lemma mkepdesc_fst (ss : Bool) (epidx : Nat) (fill : Bool) (dv : Devinfo) (speed : Nat) :
    (cdcecm_mkepdesc ss epidx fill dv speed).1 =
      if ss && (speed == USB_SPEED_SUPER || speed == USB_SPEED_SUPER_PLUS
                || speed == USB_SPEED_UNKNOWN) then 13 else 7 := by
  cases fill <;> rfl

lemma mkepdesc_snd_length (ss : Bool) (epidx : Nat) (h3 : epidx < 3)
    (dv : Devinfo) (speed : Nat) :
    (cdcecm_mkepdesc ss epidx true dv speed).2.length =
      if ss && (speed == USB_SPEED_SUPER || speed == USB_SPEED_SUPER_PLUS)
      then 13 else 7 := by
  have hc := mkepcompdesc_length epidx h3
  unfold cdcecm_mkepdesc
  interval_cases epidx <;>
    (simp_all [List.length_append, USB_SPEED_SUPER, USB_SPEED_SUPER_PLUS,
       CDCECM_EP_INTIN_IDX, CDCECM_EP_BULKIN_IDX, CDCECM_EP_BULKOUT_IDX];
     split <;> simp_all)

lemma epdesc_cond_eq (ss : Bool) (sp : Nat) (h : ss = false ∨ sp ≠ USB_SPEED_UNKNOWN) :
    (ss && (sp == USB_SPEED_SUPER || sp == USB_SPEED_SUPER_PLUS
            || sp == USB_SPEED_UNKNOWN))
      = (ss && (sp == USB_SPEED_SUPER || sp == USB_SPEED_SUPER_PLUS)) := by
  rcases h with h | h
  · subst h; simp
  · have hz : (sp == USB_SPEED_UNKNOWN) = false := by simpa using h
    simp [hz]

/-- For every real bus speed (and, when superspeed support is compiled
out, for every speed) the fill pass of `cdcecm_mkepdesc` writes exactly
as many bytes as the size pass returns. -/
lemma mkepdesc_write_eq (ss : Bool) (epidx : Nat) (h3 : epidx < 3)
    (dv : Devinfo) (sp : Nat) (h : ss = false ∨ sp ≠ USB_SPEED_UNKNOWN) :
    (cdcecm_mkepdesc ss epidx true dv sp).2.length
      = (cdcecm_mkepdesc ss epidx false dv sp).1 := by
  rw [mkepdesc_snd_length ss epidx h3 dv sp, mkepdesc_fst, epdesc_cond_eq ss sp h]

lemma mkcfgdesc_write_eq (ss : Bool) (dv : Devinfo) (speed ty : Nat)
    (h : ss = false ∨ speed ≠ USB_SPEED_UNKNOWN
         ∨ ty = USB_DESC_TYPE_OTHERSPEEDCONFIG) :
    (cdcecm_mkcfgdesc ss true dv speed ty).2.length
      = (cdcecm_mkcfgdesc ss false dv speed ty).1 := by
  have hc : ss = false
      ∨ (if ty == USB_DESC_TYPE_OTHERSPEEDCONFIG && speed < USB_SPEED_SUPER then
           (if speed == USB_SPEED_HIGH then USB_SPEED_FULL else USB_SPEED_HIGH)
         else speed) ≠ USB_SPEED_UNKNOWN := by
    rcases h with h | h | h
    · exact Or.inl h
    · right
      split
      · split <;> simp [USB_SPEED_FULL, USB_SPEED_HIGH, USB_SPEED_UNKNOWN]
      · exact h
    · right
      subst h
      split
      · split <;> simp [USB_SPEED_FULL, USB_SPEED_HIGH, USB_SPEED_UNKNOWN]
      · rename_i hcond
        simp [USB_SPEED_SUPER] at hcond
        simp [USB_SPEED_UNKNOWN]
        omega
  simp only [cdcecm_mkcfgdesc]
  simp only [Bool.not_true, Bool.not_false, Bool.false_eq_true,
    eq_self_iff_true, if_true, if_false,
    List.length_append,
    mkepdesc_write_eq ss CDCECM_EP_INTIN_IDX (by decide) dv _ hc,
    mkepdesc_write_eq ss CDCECM_EP_BULKIN_IDX (by decide) dv _ hc,
    mkepdesc_write_eq ss CDCECM_EP_BULKOUT_IDX (by decide) dv _ hc,
    List.length_cons, List.length_nil]
  simp only [USB_SIZEOF_CFGDESC, USB_SIZEOF_IFDESC, SIZEOF_HDR_FUNCDESC,
    SIZEOF_UNION_FUNCDESC1, SIZEOF_ECM_FUNCDESC]

/-- Claim C1, counterexample.  With superspeed support compiled in and
the sizing speed `USB_SPEED_UNKNOWN`, the size-only pass of the
endpoint/configuration builders counts the superspeed endpoint
companion descriptors, but the fill pass does not write them: the byte
count written differs from the length returned, refuting the claim as
stated ("for every speed").  The two passes still return equal values. -/
theorem claim_C1_counterexample :
    (cdcecm_mkepdesc true CDCECM_EP_INTIN_IDX false ⟨0, 0, 1, 2, 3⟩
        USB_SPEED_UNKNOWN).1
      ≠ (cdcecm_mkepdesc true CDCECM_EP_INTIN_IDX true ⟨0, 0, 1, 2, 3⟩
        USB_SPEED_UNKNOWN).2.length
  ∧ (cdcecm_mkcfgdesc true false ⟨0, 0, 1, 2, 3⟩
        USB_SPEED_UNKNOWN USB_DESC_TYPE_CONFIG).1
      ≠ (cdcecm_mkcfgdesc true true ⟨0, 0, 1, 2, 3⟩
        USB_SPEED_UNKNOWN USB_DESC_TYPE_CONFIG).2.length := by
  decide

/-- Claim C1 (amended): the size-only pass and the fill pass of
`cdcecm_mkcfgdesc` and `cdcecm_mkepdesc` always return equal values,
and the returned length equals the number of bytes the fill pass writes
for every configuration/endpoint descriptor request except the sizing
combination (superspeed support compiled in, speed `USB_SPEED_UNKNOWN`,
and, for the configuration descriptor, a non-other-speed type), where
the fill pass omits the endpoint companion descriptors. -/
theorem claim_C1_double_pass (ss : Bool) (epidx : Nat) (dv : Devinfo)
    (speed ty : Nat) :
    ((cdcecm_mkepdesc ss epidx false dv speed).1
        = (cdcecm_mkepdesc ss epidx true dv speed).1)
  ∧ ((cdcecm_mkcfgdesc ss false dv speed ty).1
        = (cdcecm_mkcfgdesc ss true dv speed ty).1)
  ∧ (epidx < 3 → (ss = false ∨ speed ≠ USB_SPEED_UNKNOWN) →
      (cdcecm_mkepdesc ss epidx true dv speed).2.length
        = (cdcecm_mkepdesc ss epidx false dv speed).1)
  ∧ ((ss = false ∨ speed ≠ USB_SPEED_UNKNOWN
        ∨ ty = USB_DESC_TYPE_OTHERSPEEDCONFIG) →
      (cdcecm_mkcfgdesc ss true dv speed ty).2.length
        = (cdcecm_mkcfgdesc ss false dv speed ty).1) := by
  refine ⟨mkepdesc_fst_eq ss epidx dv speed, mkcfgdesc_fst_eq ss dv speed ty,
    fun h3 h => mkepdesc_write_eq ss epidx h3 dv speed h,
    fun h => mkcfgdesc_write_eq ss dv speed ty h⟩

/-- Claim C1, witness: the amended double-pass theorem evaluated at a
concrete superspeed request. -/
theorem claim_C1_double_pass_witness :
    (cdcecm_mkepdesc true 1 true ⟨0, 0, 1, 2, 3⟩ USB_SPEED_SUPER).2.length
      = (cdcecm_mkepdesc true 1 false ⟨0, 0, 1, 2, 3⟩ USB_SPEED_SUPER).1
  ∧ (cdcecm_mkcfgdesc true true ⟨0, 0, 1, 2, 3⟩ USB_SPEED_SUPER
        USB_DESC_TYPE_CONFIG).2.length
      = (cdcecm_mkcfgdesc true false ⟨0, 0, 1, 2, 3⟩ USB_SPEED_SUPER
        USB_DESC_TYPE_CONFIG).1 := by
  refine ⟨(claim_C1_double_pass true 1 ⟨0, 0, 1, 2, 3⟩ USB_SPEED_SUPER
      USB_DESC_TYPE_CONFIG).2.2.1 (by decide) (Or.inr (by decide)),
    (claim_C1_double_pass true 1 ⟨0, 0, 1, 2, 3⟩ USB_SPEED_SUPER
      USB_DESC_TYPE_CONFIG).2.2.2 (Or.inr (Or.inl (by decide)))⟩

/-! ### String descriptors -/

/-- Byte values of the fixed string "Default" (`CDCECM_CONFIGSTRID`). -/
def strDefault : List Nat := [0x44, 0x65, 0x66, 0x61, 0x75, 0x6c, 0x74]

/-- Byte values of the fixed MAC-address string "020000112233"
(`CDCECM_MACSTRID`). -/
def strMac : List Nat :=
  [0x30, 0x32, 0x30, 0x30, 0x30, 0x30, 0x31, 0x31, 0x32, 0x32, 0x33, 0x33]

/-- `cdcecm_mkstrdesc`: string-descriptor builder.  `vendor`, `product`
and `serial` are the byte values of `CONFIG_CDCECM_VENDORSTR`,
`CONFIG_CDCECM_PRODUCTSTR` and the board serial string (the Kconfig /
board values are not fixed by the source, so they are parameters).  The
result is the C return value paired with the descriptor bytes
(`strdesc->len`, `strdesc->type`, UTF-16LE payload). -/
def cdcecm_mkstrdesc (vendor product serial : List Nat) (id : Nat) :
    Int × List Nat :=
  if id == 0 then
    -- descriptor 0 is the language id
    (4, [4, USB_DESC_TYPE_STRING, LSBYTE CDCECM_STR_LANGUAGE,
         MSBYTE CDCECM_STR_LANGUAGE])
  else
    let str? : Option (List Nat) :=
      if id == CDCECM_MANUFACTURERSTRID then some vendor
      else if id == CDCECM_PRODUCTSTRID then some product
      else if id == CDCECM_SERIALSTRID then some serial
      else if id == CDCECM_CONFIGSTRID then some strDefault
      else if id == CDCECM_MACSTRID then some strMac
      else none
    match str? with
    | none => (-EINVAL, [])
    | some str =>
      -- poor man's utf-8 to utf16-le, limited to 7-bit ascii, clamped
      let len := if str.length > CDCECM_MAXSTRLEN / 2 then CDCECM_MAXSTRLEN / 2
                 else str.length
      let data := (str.take len).flatMap (fun c => [c, 0])
      ((2 * len + 2 : Nat), (2 * len + 2) :: USB_DESC_TYPE_STRING :: data)

lemma mkstrdesc_long (str : List Nat)
    (h : CDCECM_MAXSTRLEN / 2 < str.length) :
    (if str.length > CDCECM_MAXSTRLEN / 2 then CDCECM_MAXSTRLEN / 2
     else str.length) = 63 := by
  rw [if_pos h]; rfl

/-- Claim C9: for each string-descriptor index whose source string is a
configurable text (manufacturer, product, serial), if the source is
longer than the maximum encodable length `CDCECM_MAXSTRLEN / 2 = 63`,
the builder succeeds and produces a descriptor holding exactly 63
UTF-16LE units, one per 7-bit source byte, with the length field (and
return value) `2 * 63 + 2 = 128`.  The remaining known indices have
fixed sources shorter than the maximum. -/
theorem claim_C9_truncation (vendor product serial : List Nat)
    (hv : 63 < vendor.length) (hp : 63 < product.length)
    (hs : 63 < serial.length) :
    (cdcecm_mkstrdesc vendor product serial CDCECM_MANUFACTURERSTRID
      = (128, 128 :: USB_DESC_TYPE_STRING
          :: (vendor.take 63).flatMap (fun c => [c, 0])))
  ∧ (cdcecm_mkstrdesc vendor product serial CDCECM_PRODUCTSTRID
      = (128, 128 :: USB_DESC_TYPE_STRING
          :: (product.take 63).flatMap (fun c => [c, 0])))
  ∧ (cdcecm_mkstrdesc vendor product serial CDCECM_SERIALSTRID
      = (128, 128 :: USB_DESC_TYPE_STRING
          :: (serial.take 63).flatMap (fun c => [c, 0]))) := by
  refine ⟨?_, ?_, ?_⟩ <;>
    simp_all [cdcecm_mkstrdesc, mkstrdesc_long, CDCECM_MANUFACTURERSTRID,
      CDCECM_PRODUCTSTRID, CDCECM_SERIALSTRID, CDCECM_CONFIGSTRID,
      CDCECM_MACSTRID, CDCECM_MAXSTRLEN]

/-- Claim C9, witness: truncation of concrete 64-byte strings. -/
theorem claim_C9_truncation_witness :
    cdcecm_mkstrdesc (List.replicate 64 0x41) (List.replicate 64 0x42)
        (List.replicate 64 0x43) CDCECM_MANUFACTURERSTRID
      = (128, 128 :: USB_DESC_TYPE_STRING
          :: ((List.replicate 64 0x41).take 63).flatMap (fun c => [c, 0])) := by
  exact (claim_C9_truncation (List.replicate 64 0x41) (List.replicate 64 0x42)
    (List.replicate 64 0x43) (by decide) (by decide) (by decide)).1

/-! ### Driver state

The mutable fields of `struct cdcecm_driver_s` (and of the embedded
`net_driver_s`) that the modelled operations touch.  The USB controller
and the network stack are external collaborators; their observable
invocations are recorded as events. -/

structure DrvState where
  /-- selected configuration number (`self->config`) -/
  config : Nat
  /-- cached bus speed (`self->usbdev.speed`) -/
  usbSpeed : Nat
  /-- the interrupt-IN endpoint is configured (EP_CONFIGURE succeeded,
  no EP_DISABLE since) -/
  epintCfgd : Bool
  /-- the bulk-IN endpoint is configured -/
  epbulkinCfgd : Bool
  /-- the bulk-OUT endpoint is configured -/
  epbulkoutCfgd : Bool
  /-- `self->bifup` -/
  bifup : Bool
  /-- IFF_UP bit of `self->dev.d_flags` -/
  iffUp : Bool
  /-- `self->rxpending` -/
  rxpending : Bool
  /-- `self->txdone` -/
  txdone : Bool
  /-- count of the binary semaphore `self->wrreq_idle` -/
  wrreqIdle : Nat
  /-- the single read request is queued on the bulk-OUT endpoint -/
  rdreqSubmitted : Bool
  /-- `self->dev.d_buf` contents -/
  dbuf : List Nat
  /-- `self->dev.d_len` -/
  dlen : Nat
  /-- `self->wrreq->buf` contents -/
  wrreqBuf : List Nat
  /-- `self->wrreq->len` -/
  wrreqLen : Nat
  /-- `self->dev.d_mac` -/
  mac : List Nat
  /-- NETDEV_RXIPV4 counter -/
  cntRxIPv4 : Nat
  /-- NETDEV_RXIPV6 counter -/
  cntRxIPv6 : Nat
  /-- NETDEV_RXARP counter -/
  cntRxArp : Nat
  /-- NETDEV_RXDROPPED counter -/
  cntRxDropped : Nat
  /-- NETDEV_TXPACKETS counter -/
  cntTxPackets : Nat
deriving DecidableEq

/-- Observable invocations of the USB controller, deferred-work and
network-stack collaborators, in program order. -/
inductive Ev where
  /-- `EP_CONFIGURE` on endpoint index `ep` -/
  | epConfigure (ep : Nat)
  /-- `EP_DISABLE` on endpoint index `ep` -/
  | epDisable (ep : Nat)
  /-- `EP_SUBMIT` of the single read request on the bulk-OUT endpoint -/
  | submitRd
  /-- `EP_SUBMIT` of the single write request on the bulk-IN endpoint,
  carrying the submitted payload bytes -/
  | submitWr (payload : List Nat)
  /-- `self->dev.d_ifup` callback -/
  | ifup
  /-- `self->dev.d_ifdown` callback -/
  | ifdown
  /-- `work_queue` of `cdcecm_interrupt_work` on the irqwork slot -/
  | workIrq
  /-- `EP_SUBMIT` of the control request on endpoint 0, with
  `ctrlreq->len` -/
  | submitCtrl (len : Nat)
  /-- `ipv4_input` -/
  | stackIPv4
  /-- `ipv6_input` -/
  | stackIPv6
  /-- `arp_input` -/
  | stackArp
deriving DecidableEq

/-- `cdcecm_resetconfig`: mark the device unconfigured; if it was
configured, report the link down (`d_ifdown` clears `bifup` via
`cdcecm_ifdown`) and disable all three endpoints, which forces
completion of pending transfers. -/
def cdcecm_resetconfig (s : DrvState) : DrvState × List Ev :=
  if s.config != CDCECM_CONFIGID_NONE then
    ({ s with config := CDCECM_CONFIGID_NONE,
              bifup := false,
              epintCfgd := false,
              epbulkinCfgd := false,
              epbulkoutCfgd := false,
              rdreqSubmitted := false },
     [Ev.ifdown, Ev.epDisable CDCECM_EP_INTIN_IDX,
      Ev.epDisable CDCECM_EP_BULKIN_IDX, Ev.epDisable CDCECM_EP_BULKOUT_IDX])
  else
    (s, [])

/-- Results the USB controller collaborator returns to `cdcecm_setconfig`
for the three `EP_CONFIGURE` calls and the initial `EP_SUBMIT` of the
read request. -/
structure UsbOracle where
  cfgIntRes : Int
  cfgBulkinRes : Int
  cfgBulkoutRes : Int
  submitRdRes : Int
deriving DecidableEq

/-- The MAC address bytes assigned at `SET_CONFIGURATION`. -/
def macBytes : List Nat := [0x00, 0xe0, 0xde, 0xad, 0xbe, 0xef]

/-- `cdcecm_setconfig`: returns the C return value, the new driver
state, and the collaborator invocations in order.  Mirrors the source:
early success for the already-current id; reset first; then validate;
then configure interrupt-IN, bulk-IN, bulk-OUT in order and queue the
read request, branching to the `error` label (which re-runs
`cdcecm_resetconfig`) on failure; finally record the configuration, set
the MAC and report the interface up (`cdcecm_ifup` returns `OK`, so the
IFF_UP flag is set). -/
def cdcecm_setconfig (o : UsbOracle) (s : DrvState) (config : Nat) :
    Int × DrvState × List Ev :=
  if config == s.config then
    (OK, s, [])
  else
    let r := cdcecm_resetconfig s
    if config == CDCECM_CONFIGID_NONE then
      (OK, r.1, r.2)
    else if config != CDCECM_CONFIGID then
      (-EINVAL, r.1, r.2)
    else
      let evs1 := r.2 ++ [Ev.epConfigure CDCECM_EP_INTIN_IDX]
      if o.cfgIntRes < 0 then
        let e := cdcecm_resetconfig r.1
        (o.cfgIntRes, e.1, evs1 ++ e.2)
      else
        let s1 := { r.1 with epintCfgd := true }
        let evs2 := evs1 ++ [Ev.epConfigure CDCECM_EP_BULKIN_IDX]
        if o.cfgBulkinRes < 0 then
          let e := cdcecm_resetconfig s1
          (o.cfgBulkinRes, e.1, evs2 ++ e.2)
        else
          let s2 := { s1 with epbulkinCfgd := true }
          let evs3 := evs2 ++ [Ev.epConfigure CDCECM_EP_BULKOUT_IDX]
          if o.cfgBulkoutRes < 0 then
            let e := cdcecm_resetconfig s2
            (o.cfgBulkoutRes, e.1, evs3 ++ e.2)
          else
            let s3 := { s2 with epbulkoutCfgd := true }
            let evs4 := evs3 ++ [Ev.submitRd]
            if o.submitRdRes != OK then
              let e := cdcecm_resetconfig s3
              (o.submitRdRes, e.1, evs4 ++ e.2)
            else
              let s4 := { s3 with rdreqSubmitted := true,
                                  config := config,
                                  mac := macBytes,
                                  bifup := true,
                                  iffUp := true }
              (OK, s4, evs4 ++ [Ev.ifup])

/-! ### Completion handlers -/

/-- `cdcecm_rdcomplete`: completion of the single bulk-OUT read request
with `req->result = result`.  Normal completion marks `rxpending` and
schedules the interrupt work; `-ESHUTDOWN` does nothing; any other
result re-submits the read request. -/
def cdcecm_rdcomplete (result : Int) (s : DrvState) : DrvState × List Ev :=
  if result == 0 then
    ({ s with rxpending := true }, [Ev.workIrq])
  else if result == -ESHUTDOWN then
    (s, [])
  else
    (s, [Ev.submitRd])

/-- `cdcecm_wrcomplete`: completion of the single bulk-IN write request.
Independently of `req->result` (which is only logged), the write-gate
semaphore is posted, `txdone` is set and the interrupt work is
scheduled. -/
def cdcecm_wrcomplete (_result : Int) (s : DrvState) : DrvState × List Ev :=
  ({ s with wrreqIdle := s.wrreqIdle + 1, txdone := true }, [Ev.workIrq])

/-! ### Data path -/

/-- Ethernet type values, as 16-bit big-endian wire values.  The C
compares the in-memory `uint16_t` field against `HTONS(type)`; on the
little-endian targets this equals comparing the big-endian wire value
of bytes 12 and 13 of the frame against the type constant. -/
def ETHTYPE_IP : Nat := 0x0800
def ETHTYPE_IP6 : Nat := 0x86dd
def ETHTYPE_ARP : Nat := 0x0806

/-- The Ethernet type field of the frame in `d_buf`: bytes 12 and 13
(after the two 6-byte addresses of `eth_hdr_s`), big-endian. -/
def ethType (buf : List Nat) : Nat :=
  256 * buf.getD 12 0 + buf.getD 13 0

/-- The network-stack collaborator: each input function receives the
frame buffer and length and leaves behind new buffer contents and a new
`d_len` (a value greater than zero is an outgoing reply frame). -/
structure NetOracle where
  ipv4_input : List Nat → Nat → List Nat × Nat
  ipv6_input : List Nat → Nat → List Nat × Nat
  arp_input : List Nat → Nat → List Nat × Nat

/-- `cdcecm_transmit`: acquire the write-gate (the blocking
`nxsem_wait` loop; in this sequential model the acquisition is the
decrement), copy `d_len` bytes of `d_buf` into the single write request
and submit it on the bulk-IN endpoint. -/
def cdcecm_transmit (s : DrvState) : DrvState × List Ev :=
  ({ s with wrreqIdle := s.wrreqIdle - 1,
            cntTxPackets := s.cntTxPackets + 1,
            wrreqBuf := s.dbuf.take s.dlen,
            wrreqLen := s.dlen },
   [Ev.submitWr (s.dbuf.take s.dlen)])

/-- `cdcecm_reply`: transmit the frame left in `d_buf` if the stack
produced one (`d_len > 0`). -/
def cdcecm_reply (s : DrvState) : DrvState × List Ev :=
  if s.dlen > 0 then cdcecm_transmit s else (s, [])

/-- `cdcecm_receive`: deferred dispatch of a completed read request
whose buffer holds `rdbuf` with `xfrd` transferred bytes.  The C copies
`xfrd` bytes into `d_buf` (the tail of the fixed buffer keeps its old
contents), sets `d_len`, then routes on the Ethernet type field:  IPv4
and IPv6 frames go to the stack input followed by `cdcecm_reply`; ARP
frames go to `arp_input` followed by an inline `d_len > 0` transmit;
every other type only bumps the dropped counter. -/
def cdcecm_receive (o : NetOracle) (rdbuf : List Nat) (xfrd : Nat)
    (s : DrvState) : DrvState × List Ev :=
  let s0 := { s with dbuf := rdbuf.take xfrd ++ s.dbuf.drop xfrd, dlen := xfrd }
  if ethType s0.dbuf == ETHTYPE_IP then
    let p := o.ipv4_input s0.dbuf s0.dlen
    let s1 := { s0 with cntRxIPv4 := s0.cntRxIPv4 + 1, dbuf := p.1, dlen := p.2 }
    let r := cdcecm_reply s1
    (r.1, Ev.stackIPv4 :: r.2)
  else if ethType s0.dbuf == ETHTYPE_IP6 then
    let p := o.ipv6_input s0.dbuf s0.dlen
    let s1 := { s0 with cntRxIPv6 := s0.cntRxIPv6 + 1, dbuf := p.1, dlen := p.2 }
    let r := cdcecm_reply s1
    (r.1, Ev.stackIPv6 :: r.2)
  else if ethType s0.dbuf == ETHTYPE_ARP then
    let p := o.arp_input s0.dbuf s0.dlen
    let s1 := { s0 with cntRxArp := s0.cntRxArp + 1, dbuf := p.1, dlen := p.2 }
    if s1.dlen > 0 then
      let r := cdcecm_transmit s1
      (r.1, Ev.stackArp :: r.2)
    else
      (s1, [Ev.stackArp])
  else
    ({ s0 with cntRxDropped := s0.cntRxDropped + 1 }, [])

/-! ### GET_DESCRIPTOR dispatch -/

/-- `cdcecm_getdescriptor`: route a GET_DESCRIPTOR request by type to
the device / configuration / string builders; anything else returns
`-ENOTSUP` and writes nothing.  `copyDevdesc` stands for the external
helper `usbdev_copy_devdesc` (an out-of-scope collaborator per the
spec), given the cached bus speed; the function only reads driver
state, so it takes no state and returns the C return value and the
bytes written into the control-request buffer. -/
def cdcecm_getdescriptor (copyDevdesc : Nat → Int × List Nat) (ss : Bool)
    (dv : Devinfo) (speed : Nat) (vendor product serial : List Nat)
    (ty idx : Nat) : Int × List Nat :=
  if ty == USB_DESC_TYPE_DEVICE then
    copyDevdesc speed
  else if ty == USB_DESC_TYPE_OTHERSPEEDCONFIG || ty == USB_DESC_TYPE_CONFIG then
    let r := cdcecm_mkcfgdesc ss true dv speed ty
    ((r.1 : Int), r.2)
  else if ty == USB_DESC_TYPE_STRING then
    cdcecm_mkstrdesc vendor product serial idx
  else
    (-ENOTSUP, [])

/-- The `USB_REQ_GETDESCRIPTOR` arm of `cdcecm_setup` (standard
request): refresh the cached bus speed from the bus (`dev->speed`),
dispatch to `cdcecm_getdescriptor`, and on a non-negative result queue
the reply on endpoint 0 with `ctrlreq->len = MIN(len, ret)` (the
submission result `ep0SubmitRes` becomes the return value; on
submission failure the pending request is completed locally, which only
logs). -/
def cdcecm_setup_getdesc (copyDevdesc : Nat → Int × List Nat) (ss : Bool)
    (dv : Devinfo) (vendor product serial : List Nat)
    (devSpeed : Nat) (ep0SubmitRes : Int) (desctype descindex wlen : Nat)
    (s : DrvState) : Int × DrvState × List Ev :=
  let s1 := { s with usbSpeed := devSpeed }
  let r := cdcecm_getdescriptor copyDevdesc ss dv devSpeed vendor product
    serial desctype descindex
  if r.1 ≥ 0 then
    (ep0SubmitRes, s1, [Ev.submitCtrl (min wlen r.1.toNat)])
  else
    (r.1, s1, [])

/-! ### Concrete driver states used as witnesses -/

/-- A freshly bound, unconfigured driver: configuration `NONE`, no
endpoint configured, link down, write-gate available. -/
def inactiveState : DrvState :=
  { config := CDCECM_CONFIGID_NONE, usbSpeed := USB_SPEED_FULL,
    epintCfgd := false, epbulkinCfgd := false, epbulkoutCfgd := false,
    bifup := false, iffUp := false, rxpending := false, txdone := false,
    wrreqIdle := 1, rdreqSubmitted := false, dbuf := [], dlen := 0,
    wrreqBuf := [], wrreqLen := 0, mac := [], cntRxIPv4 := 0,
    cntRxIPv6 := 0, cntRxArp := 0, cntRxDropped := 0, cntTxPackets := 0 }

/-- The driver after a successful `SET_CONFIGURATION` of the supported
id. -/
def activeState : DrvState :=
  { inactiveState with
    config := CDCECM_CONFIGID, epintCfgd := true,
    epbulkinCfgd := true, epbulkoutCfgd := true, bifup := true,
    iffUp := true, rdreqSubmitted := true, mac := macBytes }

/-! ### Claim C3: invalid configuration id -/

/-- Claim C3, counterexample.  Requesting the unsupported configuration
id 2 while the driver is in the active configuration does return
`-EINVAL`, but the driver state is not left unchanged: the request
first resets the configuration (the validity check comes after
`cdcecm_resetconfig` in the source), so the configuration field, the
endpoint configuration and the link state are torn down. -/
theorem claim_C3_counterexample :
    (cdcecm_setconfig ⟨0, 0, 0, 0⟩ activeState 2).1 = -EINVAL
  ∧ (cdcecm_setconfig ⟨0, 0, 0, 0⟩ activeState 2).2.1 ≠ activeState := by
  decide

/-- Claim C3 (amended): for a driver state whose configuration is one
of the two reachable ids, requesting a configuration id that is neither
the `NONE` id nor the supported id fails with `-EINVAL`.  If the driver
was unconfigured, the state is unchanged and no collaborator is
invoked; if it was configured, the request first tears the
configuration down to `NONE` (interface down, all three endpoints
disabled) and then fails. -/
theorem claim_C3_invalid_config (o : UsbOracle) (s : DrvState) (cfg : Nat)
    (hvalid : s.config = CDCECM_CONFIGID_NONE ∨ s.config = CDCECM_CONFIGID)
    (h0 : cfg ≠ CDCECM_CONFIGID_NONE) (h1 : cfg ≠ CDCECM_CONFIGID) :
    (cdcecm_setconfig o s cfg).1 = -EINVAL
  ∧ (s.config = CDCECM_CONFIGID_NONE →
      cdcecm_setconfig o s cfg = (-EINVAL, s, []))
  ∧ (s.config = CDCECM_CONFIGID →
      cdcecm_setconfig o s cfg =
        (-EINVAL,
         { s with
           config := CDCECM_CONFIGID_NONE, bifup := false,
           epintCfgd := false, epbulkinCfgd := false,
           epbulkoutCfgd := false, rdreqSubmitted := false },
         [Ev.ifdown, Ev.epDisable CDCECM_EP_INTIN_IDX,
          Ev.epDisable CDCECM_EP_BULKIN_IDX,
          Ev.epDisable CDCECM_EP_BULKOUT_IDX])) := by
  have h0a : ¬ cfg = 0 := by simpa [CDCECM_CONFIGID_NONE] using h0
  have h1a : ¬ cfg = 1 := by simpa [CDCECM_CONFIGID] using h1
  refine ⟨?_, ?_, ?_⟩
  · rcases hvalid with h | h <;>
      simp [cdcecm_setconfig, cdcecm_resetconfig, h, h0a, h1a,
        CDCECM_CONFIGID, CDCECM_CONFIGID_NONE, EINVAL]
  · intro h
    simp [cdcecm_setconfig, cdcecm_resetconfig, h, h0a, h1a,
      CDCECM_CONFIGID, CDCECM_CONFIGID_NONE]
  · intro h
    simp [cdcecm_setconfig, cdcecm_resetconfig, h, h0a, h1a,
      CDCECM_CONFIGID, CDCECM_CONFIGID_NONE, CDCECM_EP_INTIN_IDX,
      CDCECM_EP_BULKIN_IDX, CDCECM_EP_BULKOUT_IDX]

/-- Claim C3, witness: the amended theorem evaluated on an unconfigured
driver requesting id 2. -/
theorem claim_C3_invalid_config_witness :
    cdcecm_setconfig ⟨0, 0, 0, 0⟩ inactiveState 2 = (-EINVAL, inactiveState, []) := by
  exact (claim_C3_invalid_config ⟨0, 0, 0, 0⟩ inactiveState 2
    (Or.inl (by decide)) (by decide) (by decide)).2.1 (by decide)

/-! ### Claim C4: read-completion handling -/

/-- Claim C4: on normal completion the read handler sets `rxpending`
and schedules the deferred interrupt work without re-submitting the
request; on `-ESHUTDOWN` it does nothing at all; on any other result it
re-submits the read request and changes no driver state. -/
theorem claim_C4_rdcomplete (s : DrvState) (result : Int) :
    (cdcecm_rdcomplete 0 s = ({ s with rxpending := true }, [Ev.workIrq]))
  ∧ (cdcecm_rdcomplete (-ESHUTDOWN) s = (s, []))
  ∧ (result ≠ 0 → result ≠ -ESHUTDOWN →
      cdcecm_rdcomplete result s = (s, [Ev.submitRd])) := by
  refine ⟨by simp [cdcecm_rdcomplete], by simp [cdcecm_rdcomplete, ESHUTDOWN], ?_⟩
  intro h1 h2
  simp [cdcecm_rdcomplete, h1, h2]

/-- Claim C4, witness: an unexpected error result (- EIO) re-submits the
read request. -/
theorem claim_C4_rdcomplete_witness :
    cdcecm_rdcomplete (- EIO) inactiveState = (inactiveState, [Ev.submitRd]) := by
  exact (claim_C4_rdcomplete inactiveState (- EIO)).2.2 (by decide) (by decide)

/-! ### Claim C5: write completion always releases the gate -/

/-- Claim C5: for every completion result of the bulk-IN write request
(success, shutdown, or any error), the completion handler posts the
write-gate semaphore and sets `txdone`; in particular the gate count
becomes positive, so after an endpoint disable forces the in-flight
write to complete, a subsequent gate acquisition succeeds (no permanent
deadlock). -/
theorem claim_C5_wrcomplete_gate (result : Int) (s : DrvState) :
    (cdcecm_wrcomplete result s).1.wrreqIdle = s.wrreqIdle + 1
  ∧ (cdcecm_wrcomplete result s).1.txdone = true
  ∧ 0 < (cdcecm_wrcomplete result s).1.wrreqIdle
  ∧ (cdcecm_wrcomplete result s).2 = [Ev.workIrq] := by
  refine ⟨rfl, rfl, by simp [cdcecm_wrcomplete], rfl⟩

/-! ### Claim C6: error unwinding in SET_CONFIGURATION -/

/-- Claim C6, failing run.  From the unconfigured state, a
`SET_CONFIGURATION` of the supported id whose bulk-IN `EP_CONFIGURE`
fails with the I/O error code propagates the error and leaves the configuration
field at `NONE`, but does *not* unwind fully: the already configured
interrupt-IN endpoint stays configured and no `EP_DISABLE` is issued,
because the error-path `cdcecm_resetconfig` call is a no-op (the
configuration field is still `NONE` at that point). -/
theorem claim_C6_failing_run :
    (cdcecm_setconfig ⟨0, - EIO, 0, 0⟩ inactiveState CDCECM_CONFIGID).1 = - EIO
  ∧ (cdcecm_setconfig ⟨0, - EIO, 0, 0⟩ inactiveState
      CDCECM_CONFIGID).2.1.config = CDCECM_CONFIGID_NONE
  ∧ (cdcecm_setconfig ⟨0, - EIO, 0, 0⟩ inactiveState
      CDCECM_CONFIGID).2.1.epintCfgd = true
  ∧ (cdcecm_setconfig ⟨0, - EIO, 0, 0⟩ inactiveState CDCECM_CONFIGID).2.2
      = [Ev.epConfigure CDCECM_EP_INTIN_IDX,
         Ev.epConfigure CDCECM_EP_BULKIN_IDX] := by
  decide

/-! ### Claim C8: configuration idempotence -/

/-- Claim C8: requesting the configuration id that is already current
returns `OK` and performs no work at all: the state is unchanged and no
endpoint, request or interface callback is invoked. -/
theorem claim_C8_idempotent (o : UsbOracle) (s : DrvState) :
    cdcecm_setconfig o s s.config = (OK, s, []) := by
  simp [cdcecm_setconfig]

/-! ### Claim C7: unknown descriptor type -/

/-- Claim C7: a GET_DESCRIPTOR whose descriptor type is none of the
recognized ones (Device, Configuration, Other-Speed-Configuration,
String) makes `cdcecm_getdescriptor` return `-ENOTSUP` without writing
anything, and the setup dispatch returns `-ENOTSUP` without queuing a
reply; the driver state is untouched except for the cached bus speed,
which `cdcecm_setup` refreshes from the bus for every GET_DESCRIPTOR
before decoding the type, so the state is identical whenever the cached
speed already equals the bus speed. -/
theorem claim_C7_unknown_desctype (copyDevdesc : Nat → Int × List Nat)
    (ss : Bool) (dv : Devinfo) (vendor product serial : List Nat)
    (devSpeed : Nat) (ep0SubmitRes : Int) (ty idx wlen : Nat) (s : DrvState)
    (h1 : ty ≠ USB_DESC_TYPE_DEVICE) (h2 : ty ≠ USB_DESC_TYPE_CONFIG)
    (h3 : ty ≠ USB_DESC_TYPE_OTHERSPEEDCONFIG)
    (h4 : ty ≠ USB_DESC_TYPE_STRING) :
    cdcecm_getdescriptor copyDevdesc ss dv devSpeed vendor product serial
        ty idx = (-ENOTSUP, [])
  ∧ cdcecm_setup_getdesc copyDevdesc ss dv vendor product serial devSpeed
        ep0SubmitRes ty idx wlen s
      = (-ENOTSUP, { s with usbSpeed := devSpeed }, [])
  ∧ (s.usbSpeed = devSpeed →
      cdcecm_setup_getdesc copyDevdesc ss dv vendor product serial devSpeed
          ep0SubmitRes ty idx wlen s
        = (-ENOTSUP, s, [])) := by
  have hg : cdcecm_getdescriptor copyDevdesc ss dv devSpeed vendor product
      serial ty idx = (-ENOTSUP, []) := by
    simp [cdcecm_getdescriptor, h1, h2, h3, h4]
  refine ⟨hg, ?_, ?_⟩
  · simp [cdcecm_setup_getdesc, hg, ENOTSUP]
  · intro h
    have hs : ({ s with usbSpeed := devSpeed } : DrvState) = s := by
      rw [← h]
    simp [cdcecm_setup_getdesc, hg, ENOTSUP, hs]

/-- Claim C7, witness: type `0xaa` is rejected with no state change and
no reply submission. -/
theorem claim_C7_unknown_desctype_witness :
    cdcecm_setup_getdesc (fun _ => (18, [])) false ⟨0, 0, 1, 2, 3⟩ [] [] []
        USB_SPEED_FULL 0 0xaa 0 64 inactiveState
      = (-ENOTSUP, inactiveState, []) := by
  exact (claim_C7_unknown_desctype (fun _ => (18, [])) false ⟨0, 0, 1, 2, 3⟩
    [] [] [] USB_SPEED_FULL 0 0xaa 0 64 inactiveState
    (by decide) (by decide) (by decide) (by decide)).2.2 (by decide)

/-! ### Claim C2: receive dispatch -/

/-- The frame-buffer contents after `cdcecm_receive` copies `xfrd`
transferred bytes from the read request into `d_buf` (the tail of the
fixed-size buffer keeps its previous contents). -/
def rxBuf (rdbuf : List Nat) (xfrd : Nat) (s : DrvState) : List Nat :=
  rdbuf.take xfrd ++ s.dbuf.drop xfrd

/-- Claim C2: the deferred receive dispatch routes by the Ethernet type
field.  An IPv4 frame goes only to `ipv4_input`, an IPv6 frame only to
`ipv6_input`, an ARP frame only to `arp_input`; in each case, if the
stack leaves `d_len > 0`, exactly one transmit submission follows whose
payload is the first `d_len` bytes of the frame buffer the stack left
behind, copied into the single write request, and if it leaves
`d_len = 0` no submission occurs.  A frame of any other type only
increments the dropped counter: no stack input, no submission, and no
other state change beyond the frame-buffer copy. -/
theorem claim_C2_receive_dispatch (o : NetOracle) (rdbuf : List Nat)
    (xfrd : Nat) (s : DrvState) :
    (∀ p, ethType (rxBuf rdbuf xfrd s) = ETHTYPE_IP →
      p = o.ipv4_input (rxBuf rdbuf xfrd s) xfrd →
      (cdcecm_receive o rdbuf xfrd s).2
        = Ev.stackIPv4 ::
          (if 0 < p.2 then [Ev.submitWr (p.1.take p.2)] else [])
      ∧ (0 < p.2 →
          (cdcecm_receive o rdbuf xfrd s).1.wrreqBuf = p.1.take p.2
          ∧ (cdcecm_receive o rdbuf xfrd s).1.wrreqLen = p.2
          ∧ (cdcecm_receive o rdbuf xfrd s).1.wrreqIdle = s.wrreqIdle - 1))
  ∧ (∀ p, ethType (rxBuf rdbuf xfrd s) = ETHTYPE_IP6 →
      p = o.ipv6_input (rxBuf rdbuf xfrd s) xfrd →
      (cdcecm_receive o rdbuf xfrd s).2
        = Ev.stackIPv6 ::
          (if 0 < p.2 then [Ev.submitWr (p.1.take p.2)] else [])
      ∧ (0 < p.2 →
          (cdcecm_receive o rdbuf xfrd s).1.wrreqBuf = p.1.take p.2
          ∧ (cdcecm_receive o rdbuf xfrd s).1.wrreqLen = p.2
          ∧ (cdcecm_receive o rdbuf xfrd s).1.wrreqIdle = s.wrreqIdle - 1))
  ∧ (∀ p, ethType (rxBuf rdbuf xfrd s) = ETHTYPE_ARP →
      p = o.arp_input (rxBuf rdbuf xfrd s) xfrd →
      (cdcecm_receive o rdbuf xfrd s).2
        = Ev.stackArp ::
          (if 0 < p.2 then [Ev.submitWr (p.1.take p.2)] else [])
      ∧ (0 < p.2 →
          (cdcecm_receive o rdbuf xfrd s).1.wrreqBuf = p.1.take p.2
          ∧ (cdcecm_receive o rdbuf xfrd s).1.wrreqLen = p.2
          ∧ (cdcecm_receive o rdbuf xfrd s).1.wrreqIdle = s.wrreqIdle - 1))
  ∧ (ethType (rxBuf rdbuf xfrd s) ≠ ETHTYPE_IP →
      ethType (rxBuf rdbuf xfrd s) ≠ ETHTYPE_IP6 →
      ethType (rxBuf rdbuf xfrd s) ≠ ETHTYPE_ARP →
      cdcecm_receive o rdbuf xfrd s
        = ({ s with
             dbuf := rxBuf rdbuf xfrd s, dlen := xfrd,
             cntRxDropped := s.cntRxDropped + 1 }, [])) := by
  refine ⟨?_, ?_, ?_, ?_⟩
  · intro p h hp
    subst hp
    constructor
    · by_cases hl : 0 < (o.ipv4_input (rxBuf rdbuf xfrd s) xfrd).2 <;>
        simp_all [cdcecm_receive, cdcecm_reply, cdcecm_transmit, rxBuf]
    · intro hl
      simp_all [cdcecm_receive, cdcecm_reply, cdcecm_transmit, rxBuf]
  · intro p h hp
    subst hp
    have hne : ethType (rxBuf rdbuf xfrd s) ≠ ETHTYPE_IP := by
      rw [h]; decide
    constructor
    · by_cases hl : 0 < (o.ipv6_input (rxBuf rdbuf xfrd s) xfrd).2 <;>
        simp_all [cdcecm_receive, cdcecm_reply, cdcecm_transmit, rxBuf]
    · intro hl
      simp_all [cdcecm_receive, cdcecm_reply, cdcecm_transmit, rxBuf]
  · intro p h hp
    subst hp
    have hne : ethType (rxBuf rdbuf xfrd s) ≠ ETHTYPE_IP := by
      rw [h]; decide
    have hne6 : ethType (rxBuf rdbuf xfrd s) ≠ ETHTYPE_IP6 := by
      rw [h]; decide
    constructor
    · by_cases hl : 0 < (o.arp_input (rxBuf rdbuf xfrd s) xfrd).2 <;>
        simp_all [cdcecm_receive, cdcecm_reply, cdcecm_transmit, rxBuf]
    · intro hl
      simp_all [cdcecm_receive, cdcecm_reply, cdcecm_transmit, rxBuf]
  · intro h1 h2 h3
    simp_all [cdcecm_receive, rxBuf]

/-- Claim C2, witness: a 14-byte ARP frame whose stack reply has length
3 yields exactly one transmit submission carrying the reply bytes. -/
theorem claim_C2_receive_dispatch_witness :
    (cdcecm_receive
        ⟨fun b _ => (b, 0), fun b _ => (b, 0), fun _ _ => ([9, 9, 9, 9], 3)⟩
        [0, 0, 0, 0, 0, 0, 0, 0, 0, 0, 0, 0, 8, 6] 14 inactiveState).2
      = [Ev.stackArp, Ev.submitWr [9, 9, 9]] := by
  have h := (claim_C2_receive_dispatch
      ⟨fun b _ => (b, 0), fun b _ => (b, 0), fun _ _ => ([9, 9, 9, 9], 3)⟩
      [0, 0, 0, 0, 0, 0, 0, 0, 0, 0, 0, 0, 8, 6] 14 inactiveState).2.2.1
      ([9, 9, 9, 9], 3) (by decide) rfl
  simpa using h.1

end Cdcecm

namespace Memmem

/-!
### Optimized `memmem` (`libs/libc/string/lib_memmem.c`)

`LONG_INT_N_BYTES = sizeof(long) = 4` on the 32-bit targets of this
port, so `unsigned long` arithmetic wraps modulo `2 ^ 32`.  Buffers are
byte lists; pointers into `haystack` are indices; `int` is modelled as
the unbounded `Int` (the sum differences stay far below the `int`
range for any realistic sizes).  The C returns `NULL` or a pointer into
`haystack`; the model returns `none` or `some index`.
-/

/-- The `unsigned long` modulus, `2 ^ 32`. -/
def ULONG_MOD : Nat := 4294967296

/-- One step of the rolling last-characters accumulator:
`chars <<= 8; chars ^= b` in `unsigned long` arithmetic. -/
def stepCode (a b : Nat) : Nat := ((a <<< 8) % ULONG_MOD) ^^^ b

/-- The accumulator built by the `last_*_chars` loops over a byte
list. -/
def code4 (l : List Nat) : Nat := l.foldl stepCode 0

/-- Sum of bytes as the C accumulates into the `int sums_diff` (each
loop iteration adds one byte). -/
def byteSum (l : List Nat) : Int := (l.map (fun b => (b : Int))).sum

/-- The `k`-byte window of `h` starting at index `i`. -/
def win (h : List Nat) (i k : Nat) : List Nat := (h.drop i).take k

/-- `memchr(haystack + start, c, fuel)` as an index scan: the first
index `j` in `[start, start + fuel)` with `h[j] = c`.  `memchr` is the
libc byte scan the source calls. -/
def memchrFrom (h : List Nat) (c : Nat) : Nat → Nat → Option Nat
  | _, 0 => none
  | start, fuel + 1 =>
    if h.getD start 0 == c then some start
    else memchrFrom h c (start + 1) fuel

/-- `memchr(haystack, c, haystacklen)`. -/
def memchrIdx (h : List Nat) (c : Nat) : Option Nat :=
  memchrFrom h c 0 h.length

/-- Main loop of the `needlelen > LONG_INT_N_BYTES + 1` branch: at
window position `j` (state: rolling sum difference `sums`, rolling
last-4-characters accumulator `lastH`), slide the window and test
`sums_diff == 0 && last_haystack_chars == last_needle_chars &&
memcmp(haystack, needle, compare_len) == 0`. -/
def loopA (h n : List Nat) (cl lastN : Nat) :
    Nat → Int → Nat → Nat → Option Nat
  | _, _, _, 0 => none
  | j, sums, lastH, i + 1 =>
    let lastH2 := stepCode lastH (h.getD (j + n.length) 0)
    let sums2 := sums - (h.getD j 0 : Int) + (h.getD (j + n.length) 0 : Int)
    if sums2 == 0 && lastH2 == lastN && (win h (j + 1) cl == n.take cl) then
      some (j + 1)
    else
      loopA h n cl lastN (j + 1) sums2 lastH2 i

/-- Main loop of the `needlelen < LONG_INT_N_BYTES` branch (rolling sum
difference only, `compare_len = needlelen - 1`). -/
def loopB (h n : List Nat) (cl : Nat) : Nat → Int → Nat → Option Nat
  | _, _, 0 => none
  | j, sums, i + 1 =>
    let sums2 := sums - (h.getD j 0 : Int) + (h.getD (j + n.length) 0 : Int)
    if sums2 == 0 && (win h (j + 1) cl == n.take cl) then
      some (j + 1)
    else
      loopB h n cl (j + 1) sums2 i

/-- Main loop of the `needlelen == LONG_INT_N_BYTES` branch (the whole
needle fits in the rolling accumulator). -/
def loopC (h : List Nat) (lastN : Nat) : Nat → Nat → Nat → Option Nat
  | _, _, 0 => none
  | j, lastH, i + 1 =>
    let lastH2 := stepCode lastH (h.getD (j + 4) 0)
    if lastH2 == lastN then some (j + 1)
    else loopC h lastN (j + 1) lastH2 i

/-- Main loop of the `needlelen == LONG_INT_N_BYTES + 1` branch (the
first four needle bytes in the accumulator, the fifth compared
directly). -/
def loopD (h : List Nat) (lastN lastNChar : Nat) :
    Nat → Nat → Nat → Option Nat
  | _, _, 0 => none
  | j, lastH, i + 1 =>
    let lastH2 := stepCode lastH (h.getD (j + 4) 0)
    if lastH2 == lastN && h.getD (j + 5) 0 == lastNChar then some (j + 1)
    else loopD h lastN lastNChar (j + 1) lastH2 i

/-- The optimized `memmem`.  The setup loops of each branch compute the
initial sum difference over the aligned windows and the initial
rolling accumulators (over the last four bytes for the long branch,
over the leading four bytes for the 4- and 5-byte branches); the
initial candidate at the `memchr` hit `s` is tested before entering
the sliding loop, exactly as in the C. -/
def memmem (h n : List Nat) : Option Nat :=
  if n.length == 0 then
    -- empty needle
    some 0
  else if n.length == 1 then
    -- special case for single-character needles
    memchrIdx h (n.getD 0 0)
  else
    match memchrIdx h (n.getD 0 0) with
    | none => none
    | some s =>
      if h.length - s < n.length then
        -- the remaining haystack is smaller than needle
        none
      else
        let nl := n.length
        if 5 < nl then
          let cl := nl - 5
          let lastN := code4 (win n (nl - 4) 4)
          let sums0 : Int := byteSum (win h s nl) - byteSum n
          let lastH0 := code4 (win h (s + nl - 4) 4)
          if sums0 == 0 && lastH0 == lastN && (win h s cl == n.take cl) then
            some s
          else
            loopA h n cl lastN s sums0 lastH0 (h.length - s - nl)
        else if nl < 4 then
          let cl := nl - 1
          let sums0 : Int := byteSum (win h s nl) - byteSum n
          if sums0 == 0 && (win h s cl == n.take cl) then
            some s
          else
            loopB h n cl s sums0 (h.length - s - nl)
        else if nl == 4 then
          let lastN := code4 n
          let lastH0 := code4 (win h s 4)
          if lastH0 == lastN then some s
          else loopC h lastN s lastH0 (h.length - s - 4)
        else
          let lastN := code4 (n.take 4)
          let lastNChar := n.getD 4 0
          let lastH0 := code4 (win h s 4)
          if lastH0 == lastN && h.getD (s + 4) 0 == lastNChar then some s
          else loopD h lastN lastNChar s lastH0 (h.length - s - 5)

/-- The reference search, following the claim: the first index `i` with
`i + needlelen ≤ haystacklen` at which the needle bytes occur in the
haystack, `none` when no such index exists, and the haystack itself
(index 0) when the needle is empty. -/
def memmem_spec (h n : List Nat) : Option Nat :=
  if n.length == 0 then some 0
  else
    (List.range (h.length + 1)).find? fun i =>
      decide (i + n.length ≤ h.length) && (win h i n.length == n)

end Memmem

namespace Memmem

/-! ### Generic first-hit scan, and the bridge from the reference
definition to it -/

/-- First index `j` in `[start, start + fuel)` with `p j = true`. -/
def scanFirst (p : Nat → Bool) : Nat → Nat → Option Nat
  | _, 0 => none
  | start, fuel + 1 => if p start then some start else scanFirst p (start + 1) fuel

lemma find?_range' (p : Nat → Bool) :
    ∀ fuel start, (List.range' start fuel).find? p = scanFirst p start fuel := by
  intro fuel
  induction fuel with
  | zero => intro start; rfl
  | succ f ih =>
    intro start
    rw [List.range'_succ]
    by_cases hp : p start
    · simp [scanFirst, List.find?_cons, hp]
    · simp [scanFirst, List.find?_cons, hp, ih]

lemma scanFirst_congr_on (p q : Nat → Bool) :
    ∀ fuel start, (∀ j, start ≤ j → j < start + fuel → p j = q j) →
      scanFirst p start fuel = scanFirst q start fuel := by
  intro fuel
  induction fuel with
  | zero => intro start _; rfl
  | succ f ih =>
    intro start hpq
    have h0 := hpq start (le_refl start) (by omega)
    simp only [scanFirst, h0]
    by_cases hq : q start
    · simp [hq]
    · simp [hq]
      exact ih (start + 1) (fun j h1 h2 => hpq j (by omega) (by omega))

lemma scanFirst_none_of_false (p : Nat → Bool) :
    ∀ fuel start, (∀ j, start ≤ j → j < start + fuel → p j = false) →
      scanFirst p start fuel = none := by
  intro fuel
  induction fuel with
  | zero => intro start _; rfl
  | succ f ih =>
    intro start hall
    simp only [scanFirst, hall start (le_refl start) (by omega)]
    simp only [Bool.false_eq_true, if_false]
    exact ih (start + 1) (fun j h1 h2 => hall j (by omega) (by omega))

lemma scanFirst_skip (p : Nat → Bool) :
    ∀ d start fuel, (∀ j, start ≤ j → j < start + d → p j = false) →
      scanFirst p start (d + fuel) = scanFirst p (start + d) fuel := by
  intro d
  induction d with
  | zero => intro start fuel _; rw [Nat.zero_add, Nat.add_zero]
  | succ d ih =>
    intro start fuel hall
    have : d + 1 + fuel = (d + fuel) + 1 := by omega
    rw [this]
    simp only [scanFirst, hall start (le_refl start) (by omega)]
    simp only [Bool.false_eq_true, if_false]
    have := ih (start + 1) fuel (fun j h1 h2 => hall j (by omega) (by omega))
    rw [this]
    congr 1
    omega

lemma scanFirst_truncate (p : Nat → Bool) :
    ∀ fuel d start, (∀ j, start + fuel ≤ j → j < start + fuel + d → p j = false) →
      scanFirst p start (fuel + d) = scanFirst p start fuel := by
  intro fuel
  induction fuel with
  | zero =>
    intro d start hall
    simp only [Nat.zero_add, scanFirst]
    exact scanFirst_none_of_false p d start (fun j h1 h2 => hall j (by omega) (by omega))
  | succ f ih =>
    intro d start hall
    have : f + 1 + d = (f + d) + 1 := by omega
    rw [this]
    simp only [scanFirst]
    by_cases hp : p start
    · simp [hp]
    · simp [hp]
      exact ih d (start + 1) (fun j h1 h2 => hall j (by omega) (by omega))

/-! ### Window lemmas -/

lemma win_length (h : List Nat) (i k : Nat) :
    (win h i k).length = min k (h.length - i) := by
  simp [win]

lemma win_cons (h : List Nat) (i k : Nat) (hik : i < h.length) :
    win h i (k + 1) = h.getD i 0 :: win h (i + 1) k := by
  unfold win
  rw [List.drop_eq_getElem_cons hik, List.getD_eq_getElem h 0 hik, List.take_succ_cons]

lemma win_snoc (h : List Nat) (i k : Nat) (hk : i + k < h.length) :
    win h i (k + 1) = win h i k ++ [h.getD (i + k) 0] := by
  unfold win
  rw [List.take_succ, List.getElem?_drop]
  have : h[i + k]? = some (h.getD (i + k) 0) := by
    rw [List.getD_eq_getElem h 0 hk, List.getElem?_eq_getElem hk]
  rw [this]
  rfl

lemma win_take (h : List Nat) (i k m : Nat) (hm : m ≤ k) :
    (win h i k).take m = win h i m := by
  unfold win
  rw [List.take_take]
  congr 1
  omega

lemma win_drop (h : List Nat) (i k m : Nat) :
    (win h i k).drop m = win h (i + m) (k - m) := by
  unfold win
  rw [List.drop_take, List.drop_drop]

lemma win_whole (n : List Nat) (m : Nat) :
    win n m (n.length - m) = n.drop m := by
  unfold win
  apply List.take_of_length_le
  simp

lemma win_mem_lt (h : List Nat) (hb : ∀ b ∈ h, b < 256) (i k : Nat) :
    ∀ b ∈ win h i k, b < 256 := by
  intro b hbmem
  exact hb b (List.mem_of_mem_drop (List.mem_of_mem_take hbmem))

lemma getD_lt (h : List Nat) (hb : ∀ b ∈ h, b < 256) (j : Nat) (hj : j < h.length) :
    h.getD j 0 < 256 := by
  rw [List.getD_eq_getElem h 0 hj]
  exact hb _ (List.getElem_mem hj)

lemma drop_cons_getD (l : List Nat) (j : Nat) (hj : j < l.length) :
    l.drop j = l.getD j 0 :: l.drop (j + 1) := by
  rw [List.drop_eq_getElem_cons hj, List.getD_eq_getElem l 0 hj]

/-! ### Byte-sum lemmas -/

lemma byteSum_append (l1 l2 : List Nat) :
    byteSum (l1 ++ l2) = byteSum l1 + byteSum l2 := by
  simp [byteSum]

lemma byteSum_cons (a : Nat) (l : List Nat) :
    byteSum (a :: l) = (a : Int) + byteSum l := by
  simp [byteSum]

/-- Sliding the length-`nl` window one position to the right changes
its byte sum by dropping the leaving byte and adding the entering
byte. -/
lemma sum_roll (h : List Nat) (i nl : Nat) (h1 : 1 ≤ nl)
    (h2 : i + nl + 1 ≤ h.length) :
    byteSum (win h (i + 1) nl)
      = byteSum (win h i nl) - (h.getD i 0 : Int) + (h.getD (i + nl) 0 : Int) := by
  obtain ⟨m, rfl⟩ : ∃ m, nl = m + 1 := ⟨nl - 1, by omega⟩
  rw [win_cons h i m (by omega)]
  rw [win_snoc h (i + 1) m (by omega)]
  rw [byteSum_cons, byteSum_append]
  have : i + 1 + m = i + (m + 1) := by omega
  rw [this]
  simp [byteSum]

/-! ### Rolling-accumulator arithmetic -/

lemma xor_two_pow_mul_add : ∀ (k m e : Nat), e < 2 ^ k →
    (2 ^ k * m) ^^^ e = 2 ^ k * m + e := by
  intro k
  induction k with
  | zero =>
    intro m e he
    have : e = 0 := by omega
    subst this
    simp
  | succ k ih =>
    intro m e he
    have he2 : e < 2 * 2 ^ k := by
      rw [pow_succ] at he
      omega
    have h1 : 2 ^ (k + 1) * m = Nat.bit false (2 ^ k * m) := by
      rw [Nat.bit_val, pow_succ]
      simp
      ring
    have h2 : e = Nat.bit (decide (e % 2 = 1)) (e / 2) := by
      rw [Nat.bit_val]
      by_cases hp : e % 2 = 1 <;> simp [hp] <;> omega
    conv_lhs => rw [h1, h2]
    rw [Nat.xor_bit, ih m (e / 2) (by omega), Nat.bit_val]
    have hp2 : 2 ^ (k + 1) * m = 2 * (2 ^ k * m) := by ring
    rw [hp2]
    by_cases hp : e % 2 = 1 <;> simp [hp] <;> omega

/-- One accumulator step in closed form: the high byte is shifted out
by the 32-bit wrap and the new byte enters the low 8 bits. -/
lemma stepCode_mod (x e : Nat) (he : e < 256) :
    stepCode x e = (x % 16777216) * 256 + e := by
  unfold stepCode
  rw [Nat.shiftLeft_eq]
  have h1 : x * 2 ^ 8 % ULONG_MOD = x % 16777216 * 2 ^ 8 := by
    rw [show ULONG_MOD = 16777216 * 2 ^ 8 by norm_num [ULONG_MOD]]
    exact Nat.mul_mod_mul_right (2 ^ 8) x 16777216
  rw [h1, mul_comm, xor_two_pow_mul_add 8 _ e (by norm_num [he])]
  ring

lemma code4_quad (a b c d : Nat) (ha : a < 256) (hb : b < 256) (hc : c < 256)
    (hd : d < 256) :
    code4 [a, b, c, d] = ((a * 256 + b) * 256 + c) * 256 + d := by
  unfold code4
  simp only [List.foldl]
  rw [stepCode_mod 0 a ha, stepCode_mod _ b hb, stepCode_mod _ c hc,
    stepCode_mod _ d hd]
  have e1 : (0 % 16777216) * 256 + a = a := by omega
  rw [e1]
  have e2 : a % 16777216 = a := by omega
  rw [e2]
  have e3 : (a * 256 + b) % 16777216 = a * 256 + b := by omega
  rw [e3]
  have e4 : ((a * 256 + b) * 256 + c) % 16777216 = (a * 256 + b) * 256 + c := by
    omega
  rw [e4]

lemma code4_inj (w v : List Nat) (hw4 : w.length = 4) (hv4 : v.length = 4)
    (hwb : ∀ b ∈ w, b < 256) (hvb : ∀ b ∈ v, b < 256) :
    code4 w = code4 v → w = v := by
  rcases w with _ | ⟨a, _ | ⟨b, _ | ⟨c, _ | ⟨d, _ | _⟩⟩⟩⟩ <;> simp_all
  rcases v with _ | ⟨a2, _ | ⟨b2, _ | ⟨c2, _ | ⟨d2, _ | _⟩⟩⟩⟩ <;> simp_all
  rw [code4_quad a b c d (by omega) (by omega) (by omega) (by omega),
    code4_quad a2 b2 c2 d2 (by omega) (by omega) (by omega) (by omega)]
  intro hcode
  refine ⟨by omega, by omega, by omega, by omega⟩

lemma win4_eq (h : List Nat) (i : Nat) (hle : i + 4 ≤ h.length) :
    win h i 4 = [h.getD i 0, h.getD (i + 1) 0, h.getD (i + 2) 0,
                 h.getD (i + 3) 0] := by
  rw [show (4 : Nat) = 3 + 1 from rfl, win_cons h i 3 (by omega)]
  rw [show (3 : Nat) = 2 + 1 from rfl, win_cons h (i + 1) 2 (by omega)]
  rw [show (2 : Nat) = 1 + 1 from rfl, win_cons h (i + 2) 1 (by omega)]
  rw [show (1 : Nat) = 0 + 1 from rfl, win_cons h (i + 3) 0 (by omega)]
  rfl

/-- Rolling the accumulator over the next haystack byte advances the
4-byte code window by one position. -/
lemma code4_roll (h : List Nat) (i : Nat) (hb : ∀ b ∈ h, b < 256)
    (hlen : i + 5 ≤ h.length) :
    stepCode (code4 (win h i 4)) (h.getD (i + 4) 0) = code4 (win h (i + 1) 4) := by
  have g0 := getD_lt h hb i (by omega)
  have g1 := getD_lt h hb (i + 1) (by omega)
  have g2 := getD_lt h hb (i + 2) (by omega)
  have g3 := getD_lt h hb (i + 3) (by omega)
  have g4 := getD_lt h hb (i + 4) (by omega)
  rw [win4_eq h i (by omega), win4_eq h (i + 1) (by omega)]
  rw [code4_quad _ _ _ _ g0 g1 g2 g3]
  rw [show i + 1 + 1 = i + 2 from by omega, show i + 1 + 2 = i + 3 from by omega,
    show i + 1 + 3 = i + 4 from by omega]
  rw [code4_quad _ _ _ _ g1 g2 g3 g4]
  rw [stepCode_mod _ _ g4]
  have : (((h.getD i 0 * 256 + h.getD (i + 1) 0) * 256 + h.getD (i + 2) 0) * 256
          + h.getD (i + 3) 0) % 16777216
        = (h.getD (i + 1) 0 * 256 + h.getD (i + 2) 0) * 256 + h.getD (i + 3) 0 := by
    omega
  rw [this]

/-! ### From partial comparisons to full window equality -/

/-- If two equal-length byte lists agree on the first `k` entries and on
the entries after position `k`, and have equal byte sums, the entries at
position `k` agree as well, so the lists are equal.  This is the
argument behind comparing `compare_len` bytes only. -/
lemma eq_of_parts (w v : List Nat) (k : Nat)
    (hlen : w.length = v.length) (hk : k < w.length)
    (hpre : w.take k = v.take k) (hsuf : w.drop (k + 1) = v.drop (k + 1))
    (hsum : byteSum w = byteSum v) : w = v := by
  have hkv : k < v.length := by omega
  have hw : w = w.take k ++ w.getD k 0 :: w.drop (k + 1) := by
    conv_lhs => rw [← List.take_append_drop k w]
    rw [drop_cons_getD w k hk]
  have hv : v = v.take k ++ v.getD k 0 :: v.drop (k + 1) := by
    conv_lhs => rw [← List.take_append_drop k v]
    rw [drop_cons_getD v k hkv]
  have hsums : byteSum (w.take k) + ((w.getD k 0 : Int) + byteSum (w.drop (k + 1)))
      = byteSum (v.take k) + ((v.getD k 0 : Int) + byteSum (v.drop (k + 1))) := by
    rw [← byteSum_cons, ← byteSum_append, ← byteSum_cons, ← byteSum_append,
      ← hw, ← hv]
    exact hsum
  have hmid : w.getD k 0 = v.getD k 0 := by
    rw [hpre, hsuf] at hsums
    omega
  rw [hw, hv, hpre, hsuf, hmid]

/-! ### The branch acceptance tests characterize window equality -/

/-- Acceptance test of the `needlelen > 5` branch: equal byte sums,
equal rolling codes over the last four bytes, and equality of the first
`needlelen - 5` bytes pin down the whole window. -/
lemma checkA_iff (h n : List Nat) (hb : ∀ b ∈ h, b < 256)
    (hnb : ∀ b ∈ n, b < 256) (hnl : 6 ≤ n.length) (j : Nat)
    (hj : j + n.length ≤ h.length) :
    (byteSum (win h j n.length) - byteSum n = 0
     ∧ code4 (win h (j + n.length - 4) 4) = code4 (win n (n.length - 4) 4)
     ∧ win h j (n.length - 5) = n.take (n.length - 5))
    ↔ win h j n.length = n := by
  have hwl : (win h j n.length).length = n.length := by
    rw [win_length]
    omega
  constructor
  · rintro ⟨hsum, hcode, hpre⟩
    have hcode2 : win h (j + n.length - 4) 4 = win n (n.length - 4) 4 := by
      apply code4_inj _ _ _ _ _ _ hcode
      · rw [win_length]; omega
      · rw [win_length]; omega
      · exact win_mem_lt h hb _ _
      · exact win_mem_lt n hnb _ _
    apply eq_of_parts _ _ (n.length - 5) hwl (by omega)
    · rw [win_take h j n.length (n.length - 5) (by omega)]
      exact hpre
    · have e1 : (win h j n.length).drop (n.length - 5 + 1)
          = win h (j + (n.length - 4)) 4 := by
        rw [win_drop]
        congr 1 <;> omega
      have e2 : n.drop (n.length - 5 + 1) = win n (n.length - 4) 4 := by
        have e3 : win n (n.length - 4) 4
            = win n (n.length - 4) (n.length - (n.length - 4)) := by
          congr 1
          omega
        rw [e3, win_whole]
        congr 1
        omega
      rw [e1, e2, ← hcode2]
      congr 1
      omega
    · omega
  · intro hwin
    refine ⟨by rw [hwin]; ring, ?_, ?_⟩
    · have e1 : win h (j + n.length - 4) 4 = (win h j n.length).drop (n.length - 4) := by
        rw [win_drop]
        congr 1 <;> omega
      have e2 : win n (n.length - 4) 4 = n.drop (n.length - 4) := by
        have e3 : win n (n.length - 4) 4
            = win n (n.length - 4) (n.length - (n.length - 4)) := by
          congr 1
          omega
        rw [e3, win_whole]
      rw [e1, e2, hwin]
    · rw [← win_take h j n.length (n.length - 5) (by omega), hwin]

/-- Acceptance test of the `needlelen < 4` branch (lengths 2 and 3):
equal byte sums and equality of all but the last byte pin down the
window. -/
lemma checkB_iff (h n : List Nat) (hnl : 2 ≤ n.length) (j : Nat)
    (hj : j + n.length ≤ h.length) :
    (byteSum (win h j n.length) - byteSum n = 0
     ∧ win h j (n.length - 1) = n.take (n.length - 1))
    ↔ win h j n.length = n := by
  have hwl : (win h j n.length).length = n.length := by
    rw [win_length]
    omega
  constructor
  · rintro ⟨hsum, hpre⟩
    apply eq_of_parts _ _ (n.length - 1) hwl (by omega)
    · rw [win_take h j n.length (n.length - 1) (by omega)]
      exact hpre
    · have e1 : (win h j n.length).drop (n.length - 1 + 1) = [] := by
        apply List.drop_eq_nil_of_le
        omega
      have e2 : n.drop (n.length - 1 + 1) = [] := by
        apply List.drop_eq_nil_of_le
        omega
      rw [e1, e2]
    · omega
  · intro hwin
    refine ⟨by rw [hwin]; ring, ?_⟩
    rw [← win_take h j n.length (n.length - 1) (by omega), hwin]

/-- Acceptance test of the `needlelen == 4` branch: the rolling code
covers the whole needle. -/
lemma checkC_iff (h n : List Nat) (hb : ∀ b ∈ h, b < 256)
    (hnb : ∀ b ∈ n, b < 256) (hnl : n.length = 4) (j : Nat)
    (hj : j + 4 ≤ h.length) :
    code4 (win h j 4) = code4 n ↔ win h j 4 = n := by
  constructor
  · intro hcode
    apply code4_inj _ _ _ _ _ _ hcode
    · rw [win_length]; omega
    · exact hnl
    · exact win_mem_lt h hb _ _
    · exact hnb
  · intro hwin
    rw [hwin]

/-- Acceptance test of the `needlelen == 5` branch: the rolling code
over the first four bytes plus the direct comparison of the fifth. -/
lemma checkD_iff (h n : List Nat) (hb : ∀ b ∈ h, b < 256)
    (hnb : ∀ b ∈ n, b < 256) (hnl : n.length = 5) (j : Nat)
    (hj : j + 5 ≤ h.length) :
    (code4 (win h j 4) = code4 (n.take 4) ∧ h.getD (j + 4) 0 = n.getD 4 0)
    ↔ win h j 5 = n := by
  have hsplit : n = n.take 4 ++ [n.getD 4 0] := by
    conv_lhs => rw [← List.take_append_drop 4 n]
    rw [drop_cons_getD n 4 (by omega)]
    have : n.drop 5 = [] := by
      apply List.drop_eq_nil_of_le
      omega
    rw [this]
  have hwsplit : win h j 5 = win h j 4 ++ [h.getD (j + 4) 0] := by
    rw [show (5 : Nat) = 4 + 1 from rfl]
    exact win_snoc h j 4 (by omega)
  constructor
  · rintro ⟨hcode, hlast⟩
    have hcode2 : win h j 4 = n.take 4 := by
      apply code4_inj _ _ _ _ _ _ hcode
      · rw [win_length]; omega
      · rw [List.length_take]; omega
      · exact win_mem_lt h hb _ _
      · intro b hbm
        exact hnb b (List.mem_of_mem_take hbm)
    rw [hwsplit, hcode2, hlast, ← hsplit]
  · intro hwin
    have h4 : win h j 4 = n.take 4 := by
      rw [← win_take h j 5 4 (by omega), hwin]
    refine ⟨by rw [h4], ?_⟩
    have := hwsplit
    rw [hwin, h4] at this
    conv_lhs at this => rw [hsplit]
    have h5 := List.append_inj_right this (by rfl)
    simpa using h5.symm

lemma bool_eq_of_iff {a b : Bool} (h : a = true ↔ b = true) : a = b := by
  cases a <;> cases b <;> simp_all

/-! ### The sliding loops find the first match after their entry
position -/

lemma loopA_eq (h n : List Nat) (hb : ∀ b ∈ h, b < 256)
    (hnb : ∀ b ∈ n, b < 256) (hnl : 6 ≤ n.length) :
    ∀ i j, j + i + n.length = h.length →
      loopA h n (n.length - 5) (code4 (win n (n.length - 4) 4)) j
        (byteSum (win h j n.length) - byteSum n)
        (code4 (win h (j + n.length - 4) 4)) i
      = scanFirst (fun k => win h k n.length == n) (j + 1) i := by
  intro i
  induction i with
  | zero => intro j _; rfl
  | succ i ih =>
    intro j hlen
    have hroll : stepCode (code4 (win h (j + n.length - 4) 4))
        (h.getD (j + n.length) 0) = code4 (win h (j + 1 + n.length - 4) 4) := by
      have hr := code4_roll h (j + n.length - 4) hb (by omega)
      rw [show j + n.length - 4 + 4 = j + n.length from by omega] at hr
      rw [show j + n.length - 4 + 1 = j + 1 + n.length - 4 from by omega] at hr
      exact hr
    have hsum : byteSum (win h j n.length) - byteSum n - (h.getD j 0 : Int)
        + (h.getD (j + n.length) 0 : Int)
        = byteSum (win h (j + 1) n.length) - byteSum n := by
      rw [sum_roll h j n.length (by omega) (by omega)]
      ring
    have hcond : (byteSum (win h (j + 1) n.length) - byteSum n == 0
        && (code4 (win h (j + 1 + n.length - 4) 4) == code4 (win n (n.length - 4) 4))
        && (win h (j + 1) (n.length - 5) == n.take (n.length - 5)))
        = (win h (j + 1) n.length == n) := by
      have hiff := checkA_iff h n hb hnb hnl (j + 1) (by omega)
      apply bool_eq_of_iff
      simp only [Bool.and_eq_true, beq_iff_eq]
      constructor
      · rintro ⟨⟨h1, h2⟩, h3⟩
        exact hiff.mp ⟨h1, h2, h3⟩
      · intro hw
        obtain ⟨h1, h2, h3⟩ := hiff.mpr hw
        exact ⟨⟨h1, h2⟩, h3⟩
    simp only [loopA, scanFirst]
    rw [hroll, hsum, hcond]
    by_cases hm : (win h (j + 1) n.length == n) = true
    · simp [hm]
    · simp only [hm, Bool.false_eq_true, if_false]
      exact ih (j + 1) (by omega)

lemma loopB_eq (h n : List Nat) (hnl : 2 ≤ n.length) :
    ∀ i j, j + i + n.length = h.length →
      loopB h n (n.length - 1) j (byteSum (win h j n.length) - byteSum n) i
      = scanFirst (fun k => win h k n.length == n) (j + 1) i := by
  intro i
  induction i with
  | zero => intro j _; rfl
  | succ i ih =>
    intro j hlen
    have hsum : byteSum (win h j n.length) - byteSum n - (h.getD j 0 : Int)
        + (h.getD (j + n.length) 0 : Int)
        = byteSum (win h (j + 1) n.length) - byteSum n := by
      rw [sum_roll h j n.length (by omega) (by omega)]
      ring
    have hcond : (byteSum (win h (j + 1) n.length) - byteSum n == 0
        && (win h (j + 1) (n.length - 1) == n.take (n.length - 1)))
        = (win h (j + 1) n.length == n) := by
      have hiff := checkB_iff h n hnl (j + 1) (by omega)
      apply bool_eq_of_iff
      simp only [Bool.and_eq_true, beq_iff_eq]
      constructor
      · rintro ⟨h1, h2⟩
        exact hiff.mp ⟨h1, h2⟩
      · intro hw
        obtain ⟨h1, h2⟩ := hiff.mpr hw
        exact ⟨h1, h2⟩
    simp only [loopB, scanFirst]
    rw [hsum, hcond]
    by_cases hm : (win h (j + 1) n.length == n) = true
    · simp [hm]
    · simp only [hm, Bool.false_eq_true, if_false]
      exact ih (j + 1) (by omega)

lemma loopC_eq (h n : List Nat) (hb : ∀ b ∈ h, b < 256)
    (hnb : ∀ b ∈ n, b < 256) (hnl : n.length = 4) :
    ∀ i j, j + i + 4 = h.length →
      loopC h (code4 n) j (code4 (win h j 4)) i
      = scanFirst (fun k => win h k 4 == n) (j + 1) i := by
  intro i
  induction i with
  | zero => intro j _; rfl
  | succ i ih =>
    intro j hlen
    have hroll : stepCode (code4 (win h j 4)) (h.getD (j + 4) 0)
        = code4 (win h (j + 1) 4) := code4_roll h j hb (by omega)
    have hcond : (code4 (win h (j + 1) 4) == code4 n) = (win h (j + 1) 4 == n) := by
      have hiff := checkC_iff h n hb hnb hnl (j + 1) (by omega)
      apply bool_eq_of_iff
      simp only [beq_iff_eq]
      exact hiff
    simp only [loopC, scanFirst]
    rw [hroll, hcond]
    by_cases hm : (win h (j + 1) 4 == n) = true
    · simp [hm]
    · simp only [hm, Bool.false_eq_true, if_false]
      exact ih (j + 1) (by omega)

lemma loopD_eq (h n : List Nat) (hb : ∀ b ∈ h, b < 256)
    (hnb : ∀ b ∈ n, b < 256) (hnl : n.length = 5) :
    ∀ i j, j + i + 5 = h.length →
      loopD h (code4 (n.take 4)) (n.getD 4 0) j (code4 (win h j 4)) i
      = scanFirst (fun k => win h k 5 == n) (j + 1) i := by
  intro i
  induction i with
  | zero => intro j _; rfl
  | succ i ih =>
    intro j hlen
    have hroll : stepCode (code4 (win h j 4)) (h.getD (j + 4) 0)
        = code4 (win h (j + 1) 4) := code4_roll h j hb (by omega)
    have hcond : ((code4 (win h (j + 1) 4) == code4 (n.take 4))
        && (h.getD (j + 5) 0 == n.getD 4 0)) = (win h (j + 1) 5 == n) := by
      have hiff := checkD_iff h n hb hnb hnl (j + 1) (by omega)
      rw [show j + 1 + 4 = j + 5 from by omega] at hiff
      apply bool_eq_of_iff
      simp only [Bool.and_eq_true, beq_iff_eq]
      exact hiff
    simp only [loopD, scanFirst]
    rw [hroll, hcond]
    by_cases hm : (win h (j + 1) 5 == n) = true
    · simp [hm]
    · simp only [hm, Bool.false_eq_true, if_false]
      exact ih (j + 1) (by omega)

/-! ### Facts about the scan and the match predicate -/

lemma memchrFrom_eq_scanFirst (h : List Nat) (c : Nat) :
    ∀ fuel start, memchrFrom h c start fuel
      = scanFirst (fun j => h.getD j 0 == c) start fuel := by
  intro fuel
  induction fuel with
  | zero => intro start; rfl
  | succ f ih =>
    intro start
    simp only [memchrFrom, scanFirst]
    rw [ih (start + 1)]

lemma scanFirst_some_facts (p : Nat → Bool) :
    ∀ fuel start k, scanFirst p start fuel = some k →
      start ≤ k ∧ k < start + fuel ∧ p k = true
      ∧ ∀ j, start ≤ j → j < k → p j = false := by
  intro fuel
  induction fuel with
  | zero => intro start k hk; simp [scanFirst] at hk
  | succ f ih =>
    intro start k hk
    simp only [scanFirst] at hk
    by_cases hp : p start = true
    · rw [if_pos hp] at hk
      obtain rfl : start = k := by simpa using hk
      exact ⟨le_refl _, by omega, hp, fun j h1 h2 => by omega⟩
    · rw [if_neg hp] at hk
      obtain ⟨h1, h2, h3, h4⟩ := ih (start + 1) k hk
      refine ⟨by omega, by omega, h3, ?_⟩
      intro j hj1 hj2
      by_cases hjs : j = start
      · subst hjs
        simpa using hp
      · exact h4 j (by omega) hj2

lemma scanFirst_none_facts (p : Nat → Bool) :
    ∀ fuel start, scanFirst p start fuel = none →
      ∀ j, start ≤ j → j < start + fuel → p j = false := by
  intro fuel
  induction fuel with
  | zero => intro start _ j h1 h2; omega
  | succ f ih =>
    intro start hk j h1 h2
    simp only [scanFirst] at hk
    by_cases hp : p start = true
    · rw [if_pos hp] at hk
      simp at hk
    · rw [if_neg hp] at hk
      by_cases hjs : j = start
      · subst hjs
        simpa using hp
      · exact ih (start + 1) hk j (by omega) (by omega)

/-- A window equal to the needle fits inside the haystack. -/
lemma winEq_imp_le (h n : List Nat) (i : Nat) (h1 : 1 ≤ n.length)
    (he : (win h i n.length == n) = true) : i + n.length ≤ h.length := by
  have hlen : (win h i n.length).length = n.length := by
    rw [beq_iff_eq.mp he]
  rw [win_length] at hlen
  omega

/-- A window equal to the needle starts with the needle's first byte. -/
lemma winEq_head (h n : List Nat) (j : Nat) (h1 : 1 ≤ n.length)
    (he : (win h j n.length == n) = true) : h.getD j 0 = n.getD 0 0 := by
  have hle := winEq_imp_le h n j h1 he
  have heq := beq_iff_eq.mp he
  obtain ⟨m, hm⟩ : ∃ m, n.length = m + 1 := ⟨n.length - 1, by omega⟩
  rw [hm, win_cons h j m (by omega)] at heq
  have := congrArg (fun l => List.getD l 0 0) heq
  simpa using this

/-- No window beyond the last full position equals the needle. -/
lemma winEq_false_of_no_room (h n : List Nat) (i : Nat) (h1 : 1 ≤ n.length)
    (hroom : h.length < i + n.length) : (win h i n.length == n) = false := by
  by_cases he : (win h i n.length == n) = true
  · exact absurd (winEq_imp_le h n i h1 he) (by omega)
  · simpa using he

/-! ### The reference search as a first-hit scan -/

lemma memmem_spec_eq_scanFirst (h n : List Nat) (h1 : 1 ≤ n.length) :
    memmem_spec h n
      = scanFirst (fun i => win h i n.length == n) 0 (h.length + 1) := by
  unfold memmem_spec
  have h0 : (n.length == 0) = false := beq_eq_false_iff_ne.mpr (by omega)
  rw [h0]
  simp only [Bool.false_eq_true, if_false]
  rw [List.range_eq_range', find?_range']
  apply scanFirst_congr_on
  intro j _ _
  by_cases he : (win h j n.length == n) = true
  · have := winEq_imp_le h n j h1 he
    simp [he, this]
  · simp only [Bool.not_eq_true] at he
    simp [he]

/-! ### Equivalence of the optimized search with the reference -/

lemma memmem_eq_spec_aux (h n : List Nat) (h2 : 2 ≤ n.length) (s : Nat)
    (hmc : memchrIdx h (n.getD 0 0) = some s)
    (hroom : n.length ≤ h.length - s) :
    (if (win h s n.length == n) = true then some s
     else scanFirst (fun k => win h k n.length == n) (s + 1)
       (h.length - s - n.length))
    = scanFirst (fun k => win h k n.length == n) 0 (h.length + 1) := by
  unfold memchrIdx at hmc
  rw [memchrFrom_eq_scanFirst] at hmc
  obtain ⟨hs0, hsl, hsc, hsmin⟩ := scanFirst_some_facts _ _ _ _ hmc
  have hsl2 : s < h.length := by omega
  have hnoms : ∀ j, j < s → ((win h j n.length == n) = false) := by
    intro j hj
    by_cases he : (win h j n.length == n) = true
    · have hhead := winEq_head h n j (by omega) he
      have hfalse := hsmin j (by omega) hj
      rw [hhead] at hfalse
      simp at hfalse
    · simpa using he
  have hskip := scanFirst_skip (fun k => win h k n.length == n) s 0
    (h.length + 1 - s) (fun j h1 hj2 => hnoms j (by omega))
  rw [show s + (h.length + 1 - s) = h.length + 1 from by omega] at hskip
  rw [show (0 : Nat) + s = s from by omega] at hskip
  rw [hskip]
  have heq : h.length + 1 - s = (h.length - n.length - s + 1) + n.length := by
    omega
  rw [heq]
  rw [scanFirst_truncate _ _ _ _ (fun j hj1 hj2 =>
    winEq_false_of_no_room h n j (by omega) (by omega))]
  simp only [scanFirst]
  rw [show h.length - s - n.length = h.length - n.length - s from by omega]

theorem memmem_eq_spec (h n : List Nat) (hb : ∀ b ∈ h, b < 256)
    (hnb : ∀ b ∈ n, b < 256) :
    memmem h n = memmem_spec h n := by
  by_cases h0 : n.length = 0
  · unfold memmem memmem_spec
    simp [h0]
  have h1 : 1 ≤ n.length := by omega
  rw [memmem_spec_eq_scanFirst h n h1]
  have hb0 : (n.length == 0) = false := beq_eq_false_iff_ne.mpr h0
  by_cases hone : n.length = 1
  · -- single-character needle: plain memchr
    obtain ⟨c, rfl⟩ : ∃ c, n = [c] := by
      rcases n with _ | ⟨c, _ | _⟩ <;> simp_all
    unfold memmem memchrIdx
    rw [hb0]
    simp only [Bool.false_eq_true, if_false, if_pos (by rfl : ([c].length == 1) = true)]
    rw [memchrFrom_eq_scanFirst]
    rw [show h.length + 1 = h.length + 1 from rfl]
    have htr : scanFirst (fun i => win h i (List.length [c]) == [c]) 0 (h.length + 1)
        = scanFirst (fun i => win h i (List.length [c]) == [c]) 0 h.length := by
      have : h.length + 1 = h.length + 1 := rfl
      apply scanFirst_truncate _ h.length 1 0
      intro j hj1 hj2
      exact winEq_false_of_no_room h [c] j (by simp) (by simp; omega)
    rw [htr]
    apply scanFirst_congr_on
    intro j hj1 hj2
    have hwin1 : win h j (List.length [c]) = [h.getD j 0] := by
      simp only [List.length_singleton]
      rw [show (1 : Nat) = 0 + 1 from rfl, win_cons h j 0 (by omega)]
      rfl
    rw [hwin1]
    simp
  · -- needle of length at least two
    have h2 : 2 ≤ n.length := by omega
    have hbn1 : (n.length == 1) = false := beq_eq_false_iff_ne.mpr hone
    unfold memmem
    rw [hb0, hbn1]
    simp only [Bool.false_eq_true, if_false]
    split
    · -- memchr finds no first byte: no match anywhere
      rename_i hmc
      unfold memchrIdx at hmc
      rw [memchrFrom_eq_scanFirst] at hmc
      have hfacts := scanFirst_none_facts _ _ _ hmc
      symm
      apply scanFirst_none_of_false
      intro j _ hj2
      by_cases hroom : h.length < j + n.length
      · exact winEq_false_of_no_room h n j (by omega) hroom
      · by_cases he : (win h j n.length == n) = true
        · have hhead := winEq_head h n j (by omega) he
          have hfalse := hfacts j (by omega) (by omega)
          rw [hhead] at hfalse
          simp at hfalse
        · simpa using he
    · rename_i s hmc
      split
      · -- remaining haystack shorter than the needle: no match anywhere
        rename_i hshort
        unfold memchrIdx at hmc
        rw [memchrFrom_eq_scanFirst] at hmc
        obtain ⟨hs0, hsl, hsc, hsmin⟩ := scanFirst_some_facts _ _ _ _ hmc
        symm
        apply scanFirst_none_of_false
        intro j _ hj2
        by_cases hjs : j < s
        · by_cases he : (win h j n.length == n) = true
          · have hhead := winEq_head h n j (by omega) he
            have hfalse := hsmin j (by omega) hjs
            rw [hhead] at hfalse
            simp at hfalse
          · simpa using he
        · exact winEq_false_of_no_room h n j (by omega) (by omega)
      · rename_i hshort
        have hroom : n.length ≤ h.length - s := by omega
        have hsl2 : s < h.length := by
          unfold memchrIdx at hmc
          rw [memchrFrom_eq_scanFirst] at hmc
          have := (scanFirst_some_facts _ _ _ _ hmc).2.1
          omega
        have hsnl : s + n.length ≤ h.length := by omega
        rw [← memmem_eq_spec_aux h n h2 s hmc hroom]
        split
        · -- needlelen > 5
          rename_i hA
          have hcond0 : (byteSum (win h s n.length) - byteSum n == 0
              && (code4 (win h (s + n.length - 4) 4) == code4 (win n (n.length - 4) 4))
              && (win h s (n.length - 5) == n.take (n.length - 5)))
              = (win h s n.length == n) := by
            have hiff := checkA_iff h n hb hnb (by omega) s hsnl
            apply bool_eq_of_iff
            simp only [Bool.and_eq_true, beq_iff_eq]
            constructor
            · rintro ⟨⟨g1, g2⟩, g3⟩
              exact hiff.mp ⟨g1, g2, g3⟩
            · intro hw
              obtain ⟨g1, g2, g3⟩ := hiff.mpr hw
              exact ⟨⟨g1, g2⟩, g3⟩
          rw [hcond0]
          rw [loopA_eq h n hb hnb (by omega) (h.length - s - n.length) s (by omega)]
        · split
          · -- needlelen < 4 (so 2 or 3)
            rename_i hA hBlt
            have hcond0 : (byteSum (win h s n.length) - byteSum n == 0
                && (win h s (n.length - 1) == n.take (n.length - 1)))
                = (win h s n.length == n) := by
              have hiff := checkB_iff h n h2 s hsnl
              apply bool_eq_of_iff
              simp only [Bool.and_eq_true, beq_iff_eq]
              constructor
              · rintro ⟨g1, g2⟩
                exact hiff.mp ⟨g1, g2⟩
              · intro hw
                obtain ⟨g1, g2⟩ := hiff.mpr hw
                exact ⟨g1, g2⟩
            rw [hcond0]
            rw [loopB_eq h n h2 (h.length - s - n.length) s (by omega)]
          · split
            · -- needlelen == 4
              rename_i hA hBlt hC
              have hC4 : n.length = 4 := by simpa using hC
              simp only [hC4]
              have hcond0 : (code4 (win h s 4) == code4 n) = (win h s 4 == n) := by
                have hiff := checkC_iff h n hb hnb hC4 s (by omega)
                apply bool_eq_of_iff
                simp only [beq_iff_eq]
                exact hiff
              rw [hcond0]
              rw [loopC_eq h n hb hnb hC4 (h.length - s - 4) s (by omega)]
            · -- needlelen == 5
              rename_i hA hBlt hC
              have hD5 : n.length = 5 := by
                simp only [Nat.not_lt] at hA hBlt
                simp at hC
                omega
              simp only [hD5]
              have hcond0 : ((code4 (win h s 4) == code4 (n.take 4))
                  && (h.getD (s + 4) 0 == n.getD 4 0)) = (win h s 5 == n) := by
                have hiff := checkD_iff h n hb hnb hD5 s (by omega)
                apply bool_eq_of_iff
                simp only [Bool.and_eq_true, beq_iff_eq]
                exact hiff
              rw [hcond0]
              rw [loopD_eq h n hb hnb hD5 (h.length - s - 5) s (by omega)]

/-- Claim C10: for every haystack and needle of byte values, the
optimized sum-and-rolling-window `memmem` equals the naive reference
search: the first index `i` with `i + needlelen ≤ haystacklen` at which
the needle occurs in the haystack, `none` when no such index exists,
and the haystack itself (index 0) when the needle is empty. -/
theorem claim_C10_memmem_refines_spec (h n : List Nat)
    (hb : ∀ b ∈ h, b < 256) (hnb : ∀ b ∈ n, b < 256) :
    memmem h n = memmem_spec h n :=
  memmem_eq_spec h n hb hnb

/-- Claim C10, witness: a 17-byte haystack with a near-miss (last byte
differs) before the true 7-byte occurrence at index 9, exercising the
long-needle rolling branch. -/
theorem claim_C10_memmem_refines_spec_witness :
    memmem [1, 2, 250, 250, 250, 250, 250, 9, 1, 2, 250, 250, 250, 250, 250, 3, 9]
        [2, 250, 250, 250, 250, 250, 3]
      = memmem_spec [1, 2, 250, 250, 250, 250, 250, 9, 1, 2, 250, 250, 250, 250, 250, 3, 9]
        [2, 250, 250, 250, 250, 250, 3]
    ∧ memmem [1, 2, 250, 250, 250, 250, 250, 9, 1, 2, 250, 250, 250, 250, 250, 3, 9]
        [2, 250, 250, 250, 250, 250, 3] = some 9 := by
  refine ⟨claim_C10_memmem_refines_spec _ _ (by decide) (by decide), by decide⟩

end Memmem
